import Mathlib

/-!
# Reference path model of firebase-firestore-lite

A shallow embedding of `src/Reference.js`.  JavaScript strings are lists of
characters, the regular expressions of the source are terms of a small
regex type run by a backtracking matcher, and `String.prototype.replace`
with a non-global regex and the replacement `''` removes the first match.
The transport `db.fetch` is a log of the requests issued.
-/

namespace Firestore

/-- A JavaScript string, as the list of its characters. -/
abbrev Str := List Char

/-! ## Regular expressions -/

/-- The regex constructs that occur in `Reference.js`. -/
inductive Re where
  /-- A literal character, as in `\/`. -/
  | lit (c : Char)
  /-- One or more characters other than `c`, greedy: `[^c]+`. -/
  | plusNot (c : Char)
  /-- The assertion `^`: the position is the start of the input. -/
  | bol
  /-- The assertion `$` (no `m` flag): the position is the end of the input. -/
  | eol
  /-- Concatenation. -/
  | seq (a b : Re)
  /-- Alternation `a|b`, the left alternative first. -/
  | alt (a b : Re)
  /-- Greedy option `a?`. -/
  | opt (a : Re)

/-- First success of two alternatives, the first one tried first. -/
def orElse {α : Type} (a b : Option α) : Option α :=
  match a with
  | some x => some x
  | none => b

/-- Backtracking run of `[^c]+`: one character other than `c`, then as many
more as possible, giving characters back until the continuation succeeds. -/
def runPlusNot {α : Type} (c : Char) (k : Bool → Str → Option α) : Str → Option α
  | [] => none
  | x :: xs => if x = c then none else orElse (runPlusNot c k xs) (k false xs)

/-- Backtracking matcher in continuation-passing style.  The state is whether
the position is the start of the input and the input that remains; `k` is
what has to match after `r`. -/
def Re.run {α : Type} : Re → Bool → Str → (Bool → Str → Option α) → Option α
  | .lit c, _, s, k =>
    match s with
    | [] => none
    | x :: xs => if x = c then k false xs else none
  | .plusNot c, _, s, k => runPlusNot c k s
  | .bol, b, s, k => if b then k b s else none
  | .eol, b, s, k =>
    match s with
    | [] => k b []
    | _ :: _ => none
  | .seq r₁ r₂, b, s, k => r₁.run b s (fun b' s' => r₂.run b' s' k)
  | .alt r₁ r₂, b, s, k => orElse (r₁.run b s k) (r₂.run b s k)
  | .opt r, b, s, k => orElse (r.run b s k) (k b s)

/-- A match of `r` at the current position: what remains after the match. -/
def Re.matchAt (r : Re) (b : Bool) (s : Str) : Option Str :=
  r.run b s (fun _ rest => some rest)

/-- The input from the current position on with the first match of `r`
removed; the positions are tried from left to right. -/
def replaceFrom (r : Re) : Bool → Str → Str
  | b, [] =>
    match r.matchAt b [] with
    | some rest => rest
    | none => []
  | b, x :: xs =>
    match r.matchAt b (x :: xs) with
    | some rest => rest
    | none => x :: replaceFrom r false xs

/-- The call `s.replace(r, '')` for a regex `r` without the `g` flag. -/
def replace (r : Re) (s : Str) : Str :=
  replaceFrom r true s

/-- The call `s.split(sep)` for a one-character separator: never empty, and
`[""]` for the empty string.  The first case of the inner `match` is never
taken, as the result for the rest of the string is not empty. -/
def split (sep : Char) : Str → List Str
  | [] => [[]]
  | x :: xs =>
    if x = sep then [] :: split sep xs
    else
      match split sep xs with
      | [] => [[x]]
      | seg :: segs => (x :: seg) :: segs

/-- The regex `/^\/?/`. -/
def reLeading : Re := .seq .bol (.opt (.lit '/'))

/-- The regex `/\/?$/`. -/
def reTrailing : Re := .seq (.opt (.lit '/')) .eol

/-- The regex `/\/([^/]+)\/?$/` of `parent`. -/
def reParent : Re :=
  .seq (.lit '/') (.seq (.plusNot '/') (.seq (.opt (.lit '/')) .eol))

/-- The group `(\/([^/]+)\/?)` of the regex of `parentCollection`. -/
def reSegment : Re := .seq (.lit '/') (.seq (.plusNot '/') (.opt (.lit '/')))

/-- The regex `/(\/([^/]+)\/?){2}$|^([^/]+)$/` of `parentCollection`. -/
def reParentCollection : Re :=
  .alt (.seq (.seq reSegment reSegment) .eol) (.seq .bol (.seq (.plusNot '/') .eol))

/-! ## Reference -/

/-- The part of the `Database` object that `Reference` reads. -/
structure Database where
  rootPath : Str
  endpoint : Str
deriving DecidableEq, Repr

/-- The fields of a `Reference` instance. -/
structure Reference where
  id : Str
  db : Database
  path : Str
  name : Str
  endpoint : Str
  isRoot : Bool
deriving DecidableEq, Repr

/-- The errors thrown by the code of `Reference.js`. -/
inductive JsError where
  /-- The exception `Error(msg)`. -/
  | error (msg : String)
  /-- The exception `TypeError`, raised by calling a value that is not a function. -/
  | typeError (msg : String)
deriving DecidableEq, Repr

/-- The constructor `new Reference(path, db)`.  The `pop()` of the result of
`split` is its last element: `split` returns no empty array, so the default
of `getLastD` is never used. -/
def Reference.constructor (path : Str) (db : Database) : Reference :=
  let path := replace reTrailing (replace reLeading path)
  { id := (split '/' path).getLastD []
    db := db
    path := path
    name := db.rootPath ++ '/' :: path
    endpoint := db.endpoint ++ '/' :: path
    isRoot := decide (path = []) }

/-- The getter `isCollection`. -/
def Reference.isCollection (r : Reference) : Bool :=
  (split '/' r.path).length % 2 == 1

/-- The getter `parent`. -/
def Reference.parent (r : Reference) : Except JsError Reference :=
  if r.isRoot then .error (.error "Can't get parent of a root collection")
  else .ok (Reference.constructor (replace reParent r.path) r.db)

/-- A call `v()` of a value `v` that is a `Reference`, an object that is not
a function. -/
def Reference.call (_v : Reference) (what : String) : Except JsError Reference :=
  .error (.typeError (what ++ " is not a function"))

/-- The getter `parentCollection`.  Its last line is `return this.parent()`:
the getter `parent` is read and its value is called. -/
def Reference.parentCollection (r : Reference) : Except JsError Reference :=
  if r.isRoot then .error (.error "Can't get parent of a root collection")
  else if r.isCollection then
    .ok (Reference.constructor (replace reParentCollection r.path) r.db)
  else do
    let p ← r.parent
    p.call "this.parent"

/-- The method `child(path)`. -/
def Reference.child (r : Reference) (path : Str) : Reference :=
  let path := replace reLeading path
  Reference.constructor (r.path ++ '/' :: path) r.db

/-- The method `toJSON()`: an object as the list of its keys and values. -/
def Reference.toJSON (r : Reference) : List (String × Str) :=
  [("referenceValue", r.name)]

/-- The segment sequence of an address as the specification counts it: the
segments of the path, and no segment for the root. -/
def Reference.segments (r : Reference) : List Str :=
  if r.isRoot then [] else split '/' r.path

/-! ## Requests -/

/-- A call `db.fetch(url, { method, body })`. -/
structure Request where
  url : Str
  method : String
  body : Option Str
deriving DecidableEq, Repr

/-- The imported helpers that `set` and `update` apply to their argument;
their code is outside `Reference.js`. -/
structure Helpers (Obj : Type) where
  /-- The text `JSON.stringify(Document.encode(object))`. -/
  encodeBody : Obj → Str
  /-- The text `maskFromObject(object)`. -/
  maskFromObject : Obj → Str

/-- The method `set(object)`.  The state is the list of the requests issued
through `db.fetch` so far; the promise that is returned is not modelled. -/
def Reference.set {Obj : Type} (h : Helpers Obj) (r : Reference) (object : Obj)
    (log : List Request) : Except JsError Unit × List Request :=
  if r.isCollection then (.error (.error "Can't set a collection"), log)
  else
    (.ok (),
      log ++ [{ url := r.endpoint
                method := if r.isCollection then "POST" else "PATCH"
                body := some (h.encodeBody object) }])

/-- The method `update(object)`. -/
def Reference.update {Obj : Type} (h : Helpers Obj) (r : Reference) (object : Obj)
    (log : List Request) : Except JsError Unit × List Request :=
  if r.isCollection then (.error (.error "Can't update a collection"), log)
  else
    (.ok (),
      log ++ [{ url := r.endpoint ++ '?' :: h.maskFromObject object
                method := "PATCH"
                body := some (h.encodeBody object) }])

/-- The method `delete()`. -/
def Reference.delete (r : Reference) (log : List Request) :
    Except JsError Unit × List Request :=
  if r.isCollection then (.error (.error "Can't delete a collection"), log)
  else (.ok (), log ++ [{ url := r.endpoint, method := "DELETE", body := none }])

/-- A database for the concrete examples. -/
def exampleDb : Database :=
  { rootPath := "projects/projectId/databases/(default)/documents".toList
    endpoint := "https://firestore.googleapis.com/v1/projects/projectId/databases/(default)/documents".toList }

/-! ## Values and object literals -/

/-- A JavaScript value, as far as `Reference.query` and the options of a
query tell values apart. -/
inductive JsVal where
  | undefined
  | null
  /-- The number `NaN`. -/
  | nan
  | bool (b : Bool)
  /-- A number with an integer value. -/
  | int (n : Int)
  /-- Any other number, as its text. -/
  | double (text : String)
  | str (s : Str)
  /-- A `Reference` instance. -/
  | ref (r : Reference)
  | arr (items : List JsVal)
  /-- Any other object. -/
  | object

/-- An object literal: its properties in the order they are written, the
properties of a spread object in its place. -/
abbrev Obj := List (String × JsVal)

/-- The value of the property `key` of an object literal: of two properties
with the same key the one written later counts. -/
def Obj.get : Obj → String → Option JsVal
  | [], _ => none
  | (k, v) :: rest, key =>
    match Obj.get rest key with
    | some w => some w
    | none => if k = key then some v else none

/-- The method `query(options = {})`, which returns
`new Query({ from: [this], ...options })`.  The constructor of `Query` is a
parameter; an argument that is left out is `none` and stands for `{}`. -/
def Reference.query {Q : Type} (newQuery : Obj → Q) (r : Reference)
    (options : Option Obj) : Q :=
  newQuery (("from", JsVal.arr [JsVal.ref r]) :: options.getD [])

/-! ## Query, from the specification

`Query.js` is not among the sources.  The definitions of this section follow
sections 3, 4.2 and 4.3 of the specification for the options `from` and
`where`, and for the cursor that `startAt` and `endAt` compile to; the other
options are left out. -/

/-- Modelled from the spec: the failures of the Query compiler, which is
missing from the sources.  A validation failure carries the name of the
argument and the reason, and its message is
`Invalid argument "<argument>": <reason>`. -/
inductive QueryError where
  | invalidArgument (argument reason : String)
  /-- The failure `UnsupportedValueType` of the typed-value encoder. -/
  | unsupportedValueType
deriving DecidableEq, Repr

/-- Modelled from the spec: the typed value of the wire schema, built by the
typed-value encoder that is missing from the sources. -/
inductive TypedValue where
  | referenceValue (name : Str)
  | nullValue
  | doubleValue (text : String)
  | integerValue (decimal : String)
  | stringValue (s : Str)
  | booleanValue (b : Bool)
deriving DecidableEq, Repr

/-- Modelled from the spec: the typed-value encoder of section 4.2, missing
from the sources; the first rule that matches wins. -/
def encodeValue : JsVal → Except QueryError TypedValue
  | .ref r => .ok (.referenceValue r.name)
  | .null => .ok .nullValue
  | .nan => .ok (.doubleValue "NaN")
  | .int n => .ok (.integerValue (toString n))
  | .double text => .ok (.doubleValue text)
  | .str s => .ok (.stringValue s)
  | .bool b => .ok (.booleanValue b)
  | _ => .error .unsupportedValueType

/-- Modelled from the spec: the wire operators of a field filter, from the
operator table of section 4.3 (the Query compiler is missing from the
sources). -/
inductive Operator where
  | LESS_THAN
  | LESS_THAN_OR_EQUAL
  | GREATER_THAN
  | GREATER_THAN_OR_EQUAL
  | EQUAL
  | NOT_EQUAL
  | ARRAY_CONTAINS
  | IN
  | ARRAY_CONTAINS_ANY
  | NOT_IN
deriving DecidableEq, Repr

/-- Modelled from the spec: the table from operator symbol to wire operator
of section 4.3. -/
def operatorTable : List (Str × Operator) :=
  [("<".toList, .LESS_THAN), ("<=".toList, .LESS_THAN_OR_EQUAL),
   (">".toList, .GREATER_THAN), (">=".toList, .GREATER_THAN_OR_EQUAL),
   ("==".toList, .EQUAL), ("!=".toList, .NOT_EQUAL),
   ("array-contains".toList, .ARRAY_CONTAINS), ("in".toList, .IN),
   ("array-contains-any".toList, .ARRAY_CONTAINS_ANY), ("not-in".toList, .NOT_IN)]

/-- Modelled from the spec: the wire operator of a symbol, if the symbol is
one of the table of section 4.3. -/
def Operator.ofSymbol (s : Str) : Option Operator :=
  (operatorTable.find? (fun p => p.1 == s)).map (fun p => p.2)

/-- Modelled from the spec: the symbol of a wire operator in the table of
section 4.3. -/
def Operator.symbol : Operator → Str
  | .LESS_THAN => "<".toList
  | .LESS_THAN_OR_EQUAL => "<=".toList
  | .GREATER_THAN => ">".toList
  | .GREATER_THAN_OR_EQUAL => ">=".toList
  | .EQUAL => "==".toList
  | .NOT_EQUAL => "!=".toList
  | .ARRAY_CONTAINS => "array-contains".toList
  | .IN => "in".toList
  | .ARRAY_CONTAINS_ANY => "array-contains-any".toList
  | .NOT_IN => "not-in".toList

/-- Modelled from the spec: the operators of a unary filter (section 3). -/
inductive UnaryOperator where
  | IS_NULL
  | IS_NAN
deriving DecidableEq, Repr

/-- Modelled from the spec: the operator of a composite filter (section 3). -/
inductive CompositeOperator where
  | AND
deriving DecidableEq, Repr

/-- Modelled from the spec: the filter node of section 3, a union of three
variants, built by the Query compiler that is missing from the sources. -/
inductive Filter where
  | fieldFilter (fieldPath : Str) (op : Operator) (value : TypedValue)
  | unaryFilter (fieldPath : Str) (op : UnaryOperator)
  | compositeFilter (op : CompositeOperator) (filters : List Filter)

/-- Modelled from the spec: a condition triple `[fieldPath, operator, value]`
of the option `where` (section 4.3). -/
structure Condition where
  fieldPath : JsVal
  op : JsVal
  value : JsVal

/-- Modelled from the spec: the two syntaxes of the option `where`
(section 4.3): one triple, or an array of triples. -/
inductive WhereArg where
  | short (c : Condition)
  | compound (cs : List Condition)

/-- Modelled from the spec: the representation that both syntaxes of `where`
normalise to (section 4.3). -/
def WhereArg.conditions : WhereArg → List Condition
  | .short c => [c]
  | .compound cs => cs

/-- Modelled from the spec: the compilation of one triple (section 4.3): the
field path must be a string, the operator a symbol of the table, a value
`null` or `NaN` needs the equality symbol and gives a unary filter, and any
other value goes through the typed-value encoder into a field filter. -/
def compileCondition (c : Condition) : Except QueryError Filter :=
  match c.fieldPath with
  | .str f =>
    match (match c.op with
      | .str s => Operator.ofSymbol s
      | _ => none) with
    | some op =>
      match c.value with
      | .null =>
        if op = .EQUAL then .ok (.unaryFilter f .IS_NULL)
        else .error (.invalidArgument "where"
          "Null and NaN can only be used with the == operator")
      | .nan =>
        if op = .EQUAL then .ok (.unaryFilter f .IS_NAN)
        else .error (.invalidArgument "where"
          "Null and NaN can only be used with the == operator")
      | v =>
        match encodeValue v with
        | .ok tv => .ok (.fieldFilter f op tv)
        | .error e => .error e
    | none => .error (.invalidArgument "where" "Invalid operator")
  | _ => .error (.invalidArgument "where" "Invalid field path")

/-- Modelled from the spec: the compilation of the triples of `where` in
their order (section 4.3). -/
def compileConditions : List Condition → Except QueryError (List Filter)
  | [] => .ok []
  | c :: cs =>
    match compileCondition c with
    | .error e => .error e
    | .ok node =>
      match compileConditions cs with
      | .error e => .error e
      | .ok nodes => .ok (node :: nodes)

/-- Modelled from the spec: the root of the filter tree (section 4.3): no
root for no triple, the node itself for one triple, one composite filter with
the operator AND for more. -/
def filterRoot : List Filter → Option Filter
  | [] => none
  | [node] => some node
  | nodes => some (.compositeFilter .AND nodes)

/-- Modelled from the spec: the validation of the option `where`
(section 4.3). -/
def compileWhere : Option WhereArg → Except QueryError (Option Filter)
  | none => .ok none
  | some w =>
    match compileConditions w.conditions with
    | .error e => .error e
    | .ok nodes => .ok (filterRoot nodes)

/-- Modelled from the spec: the failure of the option `from` (section 4.3),
`Invalid argument "from": Expected a reference to a collection`. -/
def fromError : QueryError :=
  .invalidArgument "from" "Expected a reference to a collection"

/-- Modelled from the spec: the validation of one source of `from`
(section 4.3): a Reference whose address is a collection. -/
def validateFromItem : JsVal → Except QueryError (Reference × Option Bool)
  | .ref r => if r.isCollection then .ok (r, none) else .error fromError
  | _ => .error fromError

/-- Modelled from the spec: the sources of an array given as `from`. -/
def validateFromItems : List JsVal → Except QueryError (List (Reference × Option Bool))
  | [] => .ok []
  | v :: vs =>
    match validateFromItem v with
    | .error e => .error e
    | .ok item =>
      match validateFromItems vs with
      | .error e => .error e
      | .ok items => .ok (item :: items)

/-- Modelled from the spec: the validation of the option `from`
(section 4.3): a Reference or an array of References, each to a collection;
the flag `allDescendants` is unset. -/
def validateFrom : JsVal → Except QueryError (List (Reference × Option Bool))
  | .arr items => validateFromItems items
  | v =>
    match validateFromItem v with
    | .error e => .error e
    | .ok item => .ok [item]

/-- Modelled from the spec: the state of a Query (section 3), for the
options `from` and `where`. -/
structure Query where
  fromRefs : List (Reference × Option Bool)
  whereNode : Option Filter

/-- Modelled from the spec: the configuration object of the constructor of
Query (section 4.3), for the options `from` and `where`; an option that is
absent is `undefined` or `none`. -/
structure QueryConfig where
  fromArg : JsVal
  whereArg : Option WhereArg

/-- Modelled from the spec: the constructor of Query (section 4.3), which
validates each option and fails with the first failure. -/
def Query.constructor (cfg : QueryConfig) : Except QueryError Query :=
  match validateFrom cfg.fromArg with
  | .error e => .error e
  | .ok sources =>
    match compileWhere cfg.whereArg with
    | .error e => .error e
    | .ok node => .ok { fromRefs := sources, whereNode := node }

/-- Modelled from the spec: the setter `from` of a Query (section 4.3),
which puts the new list in the place of the old one. -/
def Query.from (q : Query) (v : JsVal) : Except QueryError Query :=
  match validateFrom v with
  | .error e => .error e
  | .ok sources => .ok { q with fromRefs := sources }

/-- Modelled from the spec: an entry of the compiled `from` (section 4.3). -/
structure FromEntry where
  collectionId : Str
  allDescendants : Option Bool
deriving DecidableEq, Repr

/-- Modelled from the spec: the structured query that `toJSON` returns
(sections 4.3 and 6), for the options `from` and `where`. -/
structure StructuredQuery where
  fromEntries : List FromEntry
  whereFilter : Option Filter

/-- Modelled from the spec: the method `toJSON` of a Query (section 4.3). -/
def Query.toJSON (q : Query) : StructuredQuery :=
  { fromEntries := q.fromRefs.map (fun p => { collectionId := p.1.id, allDescendants := p.2 })
    whereFilter := q.whereNode }

/-- Modelled from the spec: the wire object of a typed value (sections 3 and
6), which the typed-value encoder missing from the sources builds: the one
key that names the variant, with its value. -/
def TypedValue.toJSON : TypedValue → Obj
  | .referenceValue name => [("referenceValue", .str name)]
  | .nullValue => [("nullValue", .null)]
  | .doubleValue text => [("doubleValue", .double text)]
  | .integerValue decimal => [("integerValue", .str decimal.toList)]
  | .stringValue s => [("stringValue", .str s)]
  | .booleanValue b => [("booleanValue", .bool b)]

/-- Modelled from the spec: the cursor of section 3, which the Query compiler
missing from the sources builds for `startAt` and `endAt`. -/
structure Cursor where
  values : List TypedValue
  before : Bool
deriving DecidableEq, Repr

/-- Modelled from the spec: the validation of the option `startAt` or
`endAt` (section 4.3), missing from the sources: a Reference whose address is
a document compiles to the cursor with one value, the wire identity of the
reference from the typed-value encoder, and `before: true`; a Reference that
is no document and a value that is no Reference fail with
`Invalid argument "<argument>": Expected a reference to a document`. -/
def compileCursor (argument : String) : JsVal → Except QueryError Cursor
  | .ref r =>
    if r.isCollection then
      .error (.invalidArgument argument "Expected a reference to a document")
    else
      match encodeValue (.ref r) with
      | .ok value => .ok { values := [value], before := true }
      | .error e => .error e
  | _ => .error (.invalidArgument argument "Expected a reference to a document")

/-- Modelled from the spec: the wire object of a cursor (section 6),
`{ values: [...], before }`: the objects of its values, and the flag. -/
def Cursor.toJSON (c : Cursor) : List Obj × Bool :=
  (c.values.map TypedValue.toJSON, c.before)

/-! ## Auxiliary lemmas -/

@[simp] theorem orElse_none_left {α : Type} (b : Option α) : orElse none b = b := rfl

@[simp] theorem orElse_some {α : Type} (x : α) (b : Option α) : orElse (some x) b = some x := rfl

@[simp] theorem orElse_none_right {α : Type} (a : Option α) : orElse a none = a := by
  cases a <;> rfl

theorem replace_reLeading_slash (t : Str) : replace reLeading ('/' :: t) = t := by
  simp [replace, replaceFrom, reLeading, Re.matchAt, Re.run]

theorem replace_reLeading_other (s : Str) (h : s.head? ≠ some '/') :
    replace reLeading s = s := by
  cases s with
  | nil => simp [replace, replaceFrom, reLeading, Re.matchAt, Re.run]
  | cons x xs =>
    have hx : x ≠ '/' := by simpa using h
    simp [replace, replaceFrom, reLeading, Re.matchAt, Re.run, hx]

theorem matchAt_reTrailing (b : Bool) (s : Str) :
    reTrailing.matchAt b s = if s = [] ∨ s = ['/'] then some [] else none := by
  cases s with
  | nil => simp [reTrailing, Re.matchAt, Re.run]
  | cons x xs =>
    cases xs with
    | nil => by_cases hx : x = '/' <;> simp [reTrailing, Re.matchAt, Re.run, hx]
    | cons y ys => by_cases hx : x = '/' <;> simp [reTrailing, Re.matchAt, Re.run, hx]

theorem replaceFrom_reTrailing (b : Bool) (s : Str) :
    replaceFrom reTrailing b s = if s.getLast? = some '/' then s.dropLast else s := by
  induction s generalizing b with
  | nil => simp [replaceFrom, matchAt_reTrailing]
  | cons x xs ih =>
    cases xs with
    | nil =>
      by_cases hx : x = '/' <;> simp [replaceFrom, matchAt_reTrailing, hx]
    | cons y ys =>
      have h : replaceFrom reTrailing b (x :: y :: ys)
          = x :: replaceFrom reTrailing false (y :: ys) := by
        rw [replaceFrom, matchAt_reTrailing]
        simp
      rw [h, ih false, List.getLast?_cons_cons]
      split <;> simp

/-! ### Facts about `split` -/

theorem split_ne_nil (sep : Char) (s : Str) : split sep s ≠ [] := by
  cases s with
  | nil => simp [split]
  | cons x xs =>
    by_cases hx : x = sep
    · simp [split, hx]
    · simp only [split, hx, if_false]
      split <;> simp

theorem length_split (sep : Char) (s : Str) :
    (split sep s).length = s.count sep + 1 := by
  induction s with
  | nil => simp [split]
  | cons x xs ih =>
    by_cases hx : x = sep
    · subst hx
      simp [split, ih]
    · have hne : (x == sep) = false := by simpa using hx
      simp only [split, hx, if_false]
      rw [List.count_cons, hne]
      cases hs : split sep xs with
      | nil => exact absurd hs (split_ne_nil sep xs)
      | cons seg segs =>
        rw [hs] at ih
        simpa using ih

/-- Either the string has no separator and is its only segment, or it is a
string, a separator and its last segment. -/
theorem split_last (sep : Char) (s : Str) :
    (sep ∉ s ∧ split sep s = [s]) ∨
    ∃ pre l, s = pre ++ sep :: l ∧ sep ∉ l ∧ split sep s = split sep pre ++ [l] := by
  induction s with
  | nil => left; simp [split]
  | cons x xs ih =>
    by_cases hx : x = sep
    · subst hx
      right
      rcases ih with ⟨hno, hs⟩ | ⟨pre, l, hxs, hl, hs⟩
      · exact ⟨[], xs, by simp, hno, by simp [split, hs]⟩
      · refine ⟨x :: pre, l, by simp [hxs], hl, ?_⟩
        simp [split, hs]
    · rcases ih with ⟨hno, hs⟩ | ⟨pre, l, hxs, hl, hs⟩
      · left
        refine ⟨?_, ?_⟩
        · simp [hno, Ne.symm hx]
        · simp [split, hx, hs]
      · right
        refine ⟨x :: pre, l, by simp [hxs], hl, ?_⟩
        simp only [split, hx, if_false, hs]
        cases hp : split sep pre with
        | nil => exact absurd hp (split_ne_nil sep pre)
        | cons seg segs => simp

theorem split_append (sep : Char) (a b : Str) :
    split sep (a ++ sep :: b) = split sep a ++ split sep b := by
  induction a with
  | nil => simp [split]
  | cons x xs ih =>
    by_cases hx : x = sep
    · simp [split, hx, ih]
    · cases hp : split sep xs with
      | nil => exact absurd hp (split_ne_nil sep xs)
      | cons seg segs =>
        rw [hp] at ih
        simp [split, hx, ih, hp]

/-! ### Facts about the matcher -/

/-- Every string is a run of characters other than `c` followed by nothing
or by a `c`. -/
theorem span_decomp (c : Char) (s : Str) :
    ∃ a rest, s = a ++ rest ∧ c ∉ a ∧ (rest = [] ∨ ∃ t, rest = c :: t) := by
  induction s with
  | nil => exact ⟨[], [], rfl, by simp, Or.inl rfl⟩
  | cons x xs ih =>
    by_cases hx : x = c
    · exact ⟨[], x :: xs, rfl, by simp, Or.inr ⟨xs, by rw [hx]⟩⟩
    · obtain ⟨a, rest, hs, ha, hrest⟩ := ih
      exact ⟨x :: a, rest, by simp [hs], by simp [ha, Ne.symm hx], hrest⟩

/-- The run of `[^c]+` on a run of characters other than `c` that ends at
the end of the input or at a `c`: when the continuation refuses to start at
a character other than `c`, no shorter repetition can succeed. -/
theorem runPlusNot_seg {α : Type} (c : Char) (k : Bool → Str → Option α)
    (hk : ∀ x xs, x ≠ c → k false (x :: xs) = none)
    (a rest : Str) (ha : c ∉ a) (hrest : rest = [] ∨ ∃ t, rest = c :: t) :
    runPlusNot c k (a ++ rest) = if a = [] then none else k false rest := by
  induction a with
  | nil =>
    rcases hrest with h | ⟨t, h⟩ <;> simp [h, runPlusNot]
  | cons x xs ih =>
    have hx : x ≠ c := fun h => ha (by simp [h])
    have hxs : c ∉ xs := fun h => ha (by simp [h])
    rw [List.cons_append, runPlusNot, if_neg hx, ih hxs]
    cases xs with
    | nil => simp
    | cons y ys =>
      have hy : y ≠ c := fun h => hxs (by simp [h])
      simp [hk y _ hy]

theorem run_reSegment_other {α : Type} (k : Bool → Str → Option α) (b : Bool) (s : Str)
    (h : s.head? ≠ some '/') : reSegment.run b s k = none := by
  cases s with
  | nil => simp [reSegment, Re.run]
  | cons x xs =>
    have hx : x ≠ '/' := by simpa using h
    simp [reSegment, Re.run, hx]

theorem run_reSegment_seg {α : Type} (k : Bool → Str → Option α)
    (hk : ∀ x xs, x ≠ '/' → k false (x :: xs) = none) (b : Bool)
    (a rest : Str) (ha : '/' ∉ a) (hrest : rest = [] ∨ ∃ t, rest = '/' :: t) :
    reSegment.run b ('/' :: (a ++ rest)) k
      = if a = [] then none
        else orElse ((Re.lit '/').run false rest k) (k false rest) := by
  have h := runPlusNot_seg '/' (fun b' s' => orElse ((Re.lit '/').run b' s' k) (k b' s'))
    (by intro x xs hx; simp [Re.run, hx, hk x xs hx]) a rest ha hrest
  simpa [reSegment, Re.run] using h

theorem run_lit_cons {α : Type} (c : Char) (b : Bool) (xs : Str)
    (k : Bool → Str → Option α) : (Re.lit c).run b (c :: xs) k = k false xs := by
  simp [Re.run]

theorem run_eol (b : Bool) (s : Str) :
    Re.eol.run b s (fun _ rest => some rest) = if s = [] then some [] else none := by
  cases s <;> simp [Re.run]

/-- The group and then `$` match a slash and a segment. -/
theorem segEnd_accept (b : Bool) (a : Str) (hne : a ≠ []) (ha : '/' ∉ a) :
    reSegment.run b ('/' :: a) (fun b' s' => Re.eol.run b' s' (fun _ rest => some rest))
      = some [] := by
  have h := run_reSegment_seg (fun b' s' => Re.eol.run b' s' (fun _ rest => some rest))
    (by intro x xs _; simp [Re.run]) b a [] ha (Or.inl rfl)
  simpa [hne, Re.run] using h

/-- The group and then `$` do not match when a slash that is not the first
character is followed by more input. -/
theorem segEnd_reject (b : Bool) (u x : Str) (hu : u ≠ []) (hx : x ≠ []) :
    reSegment.run b (u ++ '/' :: x) (fun b' s' => Re.eol.run b' s' (fun _ rest => some rest))
      = none := by
  cases u with
  | nil => exact absurd rfl hu
  | cons y w =>
    by_cases hy : y = '/'
    · subst hy
      obtain ⟨a, rest, hw, ha, hrest⟩ := span_decomp '/' w
      rcases hrest with hr | ⟨t, hr⟩
      · have h := run_reSegment_seg
          (fun b' s' => Re.eol.run b' s' (fun _ rest => some rest))
          (by intro x xs _; simp [Re.run]) b a ('/' :: x) ha (Or.inr ⟨x, rfl⟩)
        have e : '/' :: w ++ '/' :: x = '/' :: (a ++ '/' :: x) := by simp [hw, hr]
        rw [e, h]
        cases x with
        | nil => exact absurd rfl hx
        | cons z zs => simp [Re.run]
      · have h := run_reSegment_seg
          (fun b' s' => Re.eol.run b' s' (fun _ rest => some rest))
          (by intro x xs _; simp [Re.run]) b a ('/' :: (t ++ '/' :: x)) ha
          (Or.inr ⟨_, rfl⟩)
        have e : '/' :: w ++ '/' :: x = '/' :: (a ++ '/' :: (t ++ '/' :: x)) := by
          simp [hw, hr]
        rw [e, h]
        cases t <;> simp [Re.run]
    · exact run_reSegment_other _ b _ (by simpa using hy)

/-- Two groups and then `$` match two segments, each after a slash. -/
theorem seg2_accept (b : Bool) (a c : Str) (hane : a ≠ []) (ha : '/' ∉ a)
    (hcne : c ≠ []) (hc : '/' ∉ c) :
    reSegment.run b ('/' :: (a ++ '/' :: c))
      (fun b' s' => reSegment.run b' s'
        (fun b'' s'' => Re.eol.run b'' s'' (fun _ rest => some rest)))
      = some [] := by
  have h := run_reSegment_seg
    (fun b' s' => reSegment.run b' s'
      (fun b'' s'' => Re.eol.run b'' s'' (fun _ rest => some rest)))
    (by intro x xs hx; exact run_reSegment_other _ _ _ (by simpa using hx))
    b a ('/' :: c) ha (Or.inr ⟨c, rfl⟩)
  have hhead : c.head? ≠ some '/' := by
    cases c with
    | nil => simp
    | cons z zs =>
      have hz : z ≠ '/' := fun e => hc (by simp [e])
      simpa using hz
  rw [h, if_neg hane, run_lit_cons]
  beta_reduce
  rw [segEnd_accept false c hcne hc, run_reSegment_other _ _ _ hhead]
  rfl

/-- Two groups and then `$` do not match when two segments, each after a
slash, are preceded by more input. -/
theorem seg2_reject (b : Bool) (w a c : Str) (hw : w ≠ []) (hane : a ≠ [])
    (hcne : c ≠ []) :
    reSegment.run b (w ++ '/' :: (a ++ '/' :: c))
      (fun b' s' => reSegment.run b' s'
        (fun b'' s'' => Re.eol.run b'' s'' (fun _ rest => some rest)))
      = none := by
  cases w with
  | nil => exact absurd rfl hw
  | cons y v =>
    by_cases hy : y = '/'
    · subst hy
      obtain ⟨a₀, rest, hv, ha₀, hrest⟩ := span_decomp '/' v
      have hk : ∀ x xs, x ≠ '/' →
          reSegment.run false (x :: xs)
            (fun b'' s'' => Re.eol.run b'' s'' (fun _ rest => some rest)) = none := by
        intro x xs hx
        exact run_reSegment_other _ _ _ (by simpa using hx)
      rcases hrest with hr | ⟨t, hr⟩
      · have h := run_reSegment_seg
          (fun b' s' => reSegment.run b' s'
            (fun b'' s'' => Re.eol.run b'' s'' (fun _ rest => some rest)))
          hk b a₀ ('/' :: (a ++ '/' :: c)) ha₀ (Or.inr ⟨_, rfl⟩)
        have e : '/' :: v ++ '/' :: (a ++ '/' :: c)
            = '/' :: (a₀ ++ '/' :: (a ++ '/' :: c)) := by simp [hv, hr]
        rw [e, h]
        have h1 := segEnd_reject false a c hane hcne
        have h2 := segEnd_reject false ('/' :: a) c (by simp) hcne
        simp only [List.cons_append] at h2
        split
        · rfl
        · rw [run_lit_cons]
          beta_reduce
          rw [h1, h2]
          rfl
      · have h := run_reSegment_seg
          (fun b' s' => reSegment.run b' s'
            (fun b'' s'' => Re.eol.run b'' s'' (fun _ rest => some rest)))
          hk b a₀ ('/' :: (t ++ '/' :: (a ++ '/' :: c))) ha₀ (Or.inr ⟨_, rfl⟩)
        have e : '/' :: v ++ '/' :: (a ++ '/' :: c)
            = '/' :: (a₀ ++ '/' :: (t ++ '/' :: (a ++ '/' :: c))) := by simp [hv, hr]
        rw [e, h]
        have h1 := segEnd_reject false (t ++ '/' :: a) c (by simp) hcne
        have h2 := segEnd_reject false ('/' :: (t ++ '/' :: a)) c (by simp) hcne
        simp only [List.cons_append, List.append_assoc] at h1 h2
        split
        · rfl
        · rw [run_lit_cons]
          beta_reduce
          rw [h1, h2]
          rfl
    · exact run_reSegment_other _ b _ (by simpa using hy)

theorem plusEnd_accept (x : Str) (hne : x ≠ []) (hx : '/' ∉ x) :
    runPlusNot '/' (fun b' s' => Re.eol.run b' s' (fun _ rest => some rest)) x = some [] := by
  have h := runPlusNot_seg '/' (fun b' s' => Re.eol.run b' s' (fun _ rest => some rest))
    (by intro y ys _; simp [Re.run]) x [] hx (Or.inl rfl)
  simpa [hne, Re.run] using h

theorem plusEnd_reject (s : Str) (hs : '/' ∈ s) :
    runPlusNot '/' (fun b' s' => Re.eol.run b' s' (fun _ rest => some rest)) s = none := by
  obtain ⟨a, rest, e, ha, hrest⟩ := span_decomp '/' s
  have h := runPlusNot_seg '/' (fun b' s' => Re.eol.run b' s' (fun _ rest => some rest))
    (by intro y ys _; simp [Re.run]) a rest ha hrest
  rw [e, h]
  rcases hrest with hr | ⟨t, hr⟩
  · subst hr
    simp at e
    exact absurd (e ▸ hs) ha
  · subst hr
    split <;> simp [Re.run]

theorem matchAt_reParent (b : Bool) (s : Str) :
    reParent.matchAt b s
      = reSegment.run b s (fun b' s' => Re.eol.run b' s' (fun _ rest => some rest)) := rfl

theorem matchAt_reParentCollection (b : Bool) (s : Str) :
    reParentCollection.matchAt b s
      = orElse
          (reSegment.run b s (fun b' s' => reSegment.run b' s'
            (fun b'' s'' => Re.eol.run b'' s'' (fun _ rest => some rest))))
          (if b then
            runPlusNot '/' (fun b' s' => Re.eol.run b' s' (fun _ rest => some rest)) s
           else none) := by
  cases b <;> rfl

/-- The regex of `parent` leaves a string without a slash as it is. -/
theorem replaceFrom_reParent_noslash (b : Bool) (x : Str) (hx : '/' ∉ x) :
    replaceFrom reParent b x = x := by
  induction x generalizing b with
  | nil =>
    simp [replaceFrom, matchAt_reParent, run_reSegment_other]
  | cons y ys ih =>
    have hy : y ≠ '/' := fun e => hx (by simp [e])
    have hys : '/' ∉ ys := fun e => hx (by simp [e])
    rw [replaceFrom, matchAt_reParent, run_reSegment_other _ _ _ (by simpa using hy)]
    simp [ih false hys]

/-- The regex of `parent` removes a last segment together with the slash
before it. -/
theorem replaceFrom_reParent_last (b : Bool) (pre x : Str) (hne : x ≠ []) (hx : '/' ∉ x) :
    replaceFrom reParent b (pre ++ '/' :: x) = pre := by
  induction pre generalizing b with
  | nil =>
    simp [replaceFrom, matchAt_reParent, segEnd_accept b x hne hx]
  | cons y ys ih =>
    have h := segEnd_reject b (y :: ys) x (by simp) hne
    rw [List.cons_append] at h ⊢
    rw [replaceFrom, matchAt_reParent, h]
    simp [ih false]

/-- The regex of `parentCollection` removes a path of one segment. -/
theorem replace_reParentCollection_one (x : Str) (hne : x ≠ []) (hx : '/' ∉ x) :
    replace reParentCollection x = [] := by
  cases x with
  | nil => exact absurd rfl hne
  | cons y ys =>
    have hy : y ≠ '/' := fun e => hx (by simp [e])
    rw [replace, replaceFrom, matchAt_reParentCollection,
      run_reSegment_other _ _ _ (by simpa using hy)]
    simp [plusEnd_accept (y :: ys) hne hx]

/-- The regex of `parentCollection` removes the last two segments together
with the slash before each. -/
theorem replaceFrom_reParentCollection_two (b : Bool) (pre a c : Str)
    (hane : a ≠ []) (ha : '/' ∉ a) (hcne : c ≠ []) (hc : '/' ∉ c) :
    replaceFrom reParentCollection b (pre ++ '/' :: (a ++ '/' :: c)) = pre := by
  induction pre generalizing b with
  | nil =>
    simp [replaceFrom, matchAt_reParentCollection, seg2_accept b a c hane ha hcne hc]
  | cons y ys ih =>
    have h := seg2_reject b (y :: ys) a c (by simp) hane hcne
    have h2 := plusEnd_reject (y :: ys ++ '/' :: (a ++ '/' :: c)) (by simp)
    rw [List.cons_append] at h h2 ⊢
    rw [replaceFrom, matchAt_reParentCollection, h, h2]
    simp [ih false]

/-! ### Facts about the constructor -/

theorem mem_split_noslash (sep : Char) (s : Str) :
    ∀ seg ∈ split sep s, sep ∉ seg := by
  induction s with
  | nil => simp [split]
  | cons x xs ih =>
    by_cases hx : x = sep
    · intro seg hseg
      simp only [split, hx, if_true, List.mem_cons] at hseg
      rcases hseg with h | h
      · simp [h]
      · exact ih seg h
    · cases hp : split sep xs with
      | nil => exact absurd hp (split_ne_nil sep xs)
      | cons y ys =>
        rw [hp] at ih
        intro seg hseg
        simp only [split, hx, if_false, hp, List.mem_cons] at hseg
        rcases hseg with h | h
        · have hy := ih y (by simp)
          simp [h, hy, Ne.symm hx]
        · exact ih seg (by simp [h])

theorem segs_ne_nil (s : Str) (h : ∀ seg ∈ split '/' s, seg ≠ []) : s ≠ [] := by
  intro e
  subst e
  exact h [] (by simp [split]) rfl

theorem segs_head (s : Str) (h : ∀ seg ∈ split '/' s, seg ≠ []) :
    s.head? ≠ some '/' := by
  cases s with
  | nil => simp
  | cons x xs =>
    intro e
    have hx : x = '/' := by simpa using e
    exact h [] (by simp [split, hx]) rfl

theorem noslash_last (s : Str) (h : '/' ∉ s) : s.getLast? ≠ some '/' := by
  intro e
  obtain ⟨ys, hys⟩ := List.getLast?_eq_some_iff.mp e
  exact h (by simp [hys])

theorem segs_last (s : Str) (h : ∀ seg ∈ split '/' s, seg ≠ []) :
    s.getLast? ≠ some '/' := by
  rcases split_last '/' s with ⟨hno, _⟩ | ⟨pre, l, hs, hl, hsp⟩
  · exact noslash_last s hno
  · have hlne : l ≠ [] := h l (by simp [hsp])
    have e : s.getLast? = l.getLast? := by
      rw [hs, List.getLast?_append_of_ne_nil _ (by simp)]
      cases l with
      | nil => exact absurd rfl hlne
      | cons y ys => simp [List.getLast?_cons_cons]
    rw [e]
    exact noslash_last l hl

theorem noslash_head (s : Str) (h : '/' ∉ s) : s.head? ≠ some '/' := by
  cases s with
  | nil => simp
  | cons x xs =>
    intro e
    have hx : x = '/' := by simpa using e
    exact h (by simp [hx])

/-- The constructor keeps a path that neither begins nor ends with a slash. -/
theorem normalize_clean (p : Str) (h₁ : p.head? ≠ some '/') (h₂ : p.getLast? ≠ some '/') :
    replace reTrailing (replace reLeading p) = p := by
  rw [replace_reLeading_other p h₁, replace, replaceFrom_reTrailing, if_neg h₂]

theorem constructor_path (p : Str) (db : Database) :
    (Reference.constructor p db).path = replace reTrailing (replace reLeading p) := rfl

theorem constructor_isRoot (p : Str) (db : Database) :
    (Reference.constructor p db).isRoot = decide ((Reference.constructor p db).path = []) := rfl

theorem constructor_db (p : Str) (db : Database) : (Reference.constructor p db).db = db := rfl

theorem constructor_id (p : Str) (db : Database) :
    (Reference.constructor p db).id = (split '/' (Reference.constructor p db).path).getLastD [] := rfl

/-- The getter `parent` on a path of two or more segments: the last segment
and the slash before it are removed. -/
theorem parent_drops_last_segment (pre x : Str) (db : Database)
    (hpne : pre ≠ []) (hph : pre.head? ≠ some '/') (hne : x ≠ []) (hx : '/' ∉ x) :
    (Reference.constructor (pre ++ '/' :: x) db).path = pre ++ '/' :: x ∧
    (Reference.constructor (pre ++ '/' :: x) db).parent = .ok (Reference.constructor pre db) := by
  have hh : (pre ++ '/' :: x).head? ≠ some '/' := by
    cases pre with
    | nil => exact absurd rfl hpne
    | cons y ys => simpa using hph
  have hl : (pre ++ '/' :: x).getLast? ≠ some '/' := by
    rw [List.getLast?_append_of_ne_nil _ (by simp)]
    cases x with
    | nil => exact absurd rfl hne
    | cons y ys =>
      rw [List.getLast?_cons_cons]
      exact noslash_last _ hx
  have hp : (Reference.constructor (pre ++ '/' :: x) db).path = pre ++ '/' :: x :=
    (constructor_path _ db).trans (normalize_clean _ hh hl)
  have hr : (Reference.constructor (pre ++ '/' :: x) db).isRoot = false := by
    rw [constructor_isRoot, hp]
    simp
  refine ⟨hp, ?_⟩
  rw [Reference.parent, hr, hp, replace, replaceFrom_reParent_last true pre x hne hx]
  rfl

/-! ## The claims -/

/-- C1, the code against the claim: for a path of one segment, such as
`col`, the getter `parent` returns a reference with the same path and not
the root, because the regex of `parent` needs a slash before the last
segment. -/
theorem C1_parent_of_single_segment (x : Str) (db : Database)
    (hne : x ≠ []) (hx : '/' ∉ x) :
    (Reference.constructor x db).path = x ∧
    (Reference.constructor x db).parent = .ok (Reference.constructor x db) ∧
    (Reference.constructor x db).isRoot = false := by
  have hp : (Reference.constructor x db).path = x :=
    (constructor_path x db).trans (normalize_clean x (noslash_head x hx) (noslash_last x hx))
  have hr : (Reference.constructor x db).isRoot = false := by
    rw [constructor_isRoot, hp]
    simpa using hne
  refine ⟨hp, ?_, hr⟩
  rw [Reference.parent, hr, hp, replace, replaceFrom_reParent_noslash true x hx]
  rfl

/-- Witness for C1: the parent of `col` is `col`. -/
theorem C1_parent_of_single_segment_witness :
    (Reference.constructor "col".toList exampleDb).path = "col".toList ∧
    (Reference.constructor "col".toList exampleDb).parent
      = .ok (Reference.constructor "col".toList exampleDb) ∧
    (Reference.constructor "col".toList exampleDb).isRoot = false :=
  C1_parent_of_single_segment "col".toList exampleDb (by decide) (by decide)

/-- C2, the code against the claim: for every document reference the getter
`parentCollection` throws a `TypeError`, because its last line calls the
value of the getter `parent` as a function. -/
theorem C2_parentCollection_of_document_throws (raw : Str) (db : Database)
    (hdoc : (Reference.constructor raw db).isCollection = false) :
    (Reference.constructor raw db).parentCollection
      = .error (.typeError "this.parent is not a function") := by
  have hr : (Reference.constructor raw db).isRoot = false := by
    cases h : (Reference.constructor raw db).isRoot with
    | false => rfl
    | true =>
      rw [constructor_isRoot] at h
      have hp : (Reference.constructor raw db).path = [] := by simpa using h
      rw [Reference.isCollection, hp] at hdoc
      simp [split] at hdoc
  simp [Reference.parentCollection, Reference.parent, hr, hdoc, Reference.call, bind,
    Except.bind]

/-- Witness for C2: `parentCollection` of the document `col/doc` throws. -/
theorem C2_parentCollection_of_document_throws_witness :
    (Reference.constructor "col/doc".toList exampleDb).parentCollection
      = .error (.typeError "this.parent is not a function") :=
  C2_parentCollection_of_document_throws "col/doc".toList exampleDb (by decide)

/-- C3: for a non-root collection reference whose segments are all
non-empty, `parentCollection` returns a reference on the same database; with
three or more segments its path is the path without the last two segments
and the slash before each, and with one segment it is the root. -/
theorem C3_parentCollection_of_collection (raw : Str) (db : Database)
    (hroot : (Reference.constructor raw db).isRoot = false)
    (hcoll : (Reference.constructor raw db).isCollection = true)
    (hseg : ∀ seg ∈ split '/' (Reference.constructor raw db).path, seg ≠ []) :
    (3 ≤ (split '/' (Reference.constructor raw db).path).length →
      ∃ p a b, (Reference.constructor raw db).parentCollection = .ok p ∧ p.db = db ∧
        split '/' p.path = ((split '/' (Reference.constructor raw db).path).dropLast).dropLast ∧
        split '/' (Reference.constructor raw db).path = split '/' p.path ++ [a, b] ∧
        (Reference.constructor raw db).path = p.path ++ '/' :: (a ++ '/' :: b)) ∧
    ((split '/' (Reference.constructor raw db).path).length = 1 →
      ∃ p, (Reference.constructor raw db).parentCollection = .ok p ∧ p.db = db ∧
        p.path = [] ∧ p.isRoot = true) := by
  have hpc : (Reference.constructor raw db).parentCollection
      = .ok (Reference.constructor (replace reParentCollection (Reference.constructor raw db).path) db) := by
    simp [Reference.parentCollection, hroot, hcoll, constructor_db]
  generalize (Reference.constructor raw db).path = P at hseg hpc ⊢
  constructor
  · intro hlen
    rcases split_last '/' P with ⟨_, hs⟩ | ⟨pre₁, b, hP, hb, hs⟩
    · rw [hs] at hlen
      simp at hlen
    · rcases split_last '/' pre₁ with ⟨_, hs₁⟩ | ⟨pre, a, hpre₁, ha, hs₁⟩
      · rw [hs, hs₁] at hlen
        simp at hlen
      · have hsplit : split '/' P = split '/' pre ++ [a, b] := by
          rw [hs, hs₁]
          simp
        have hane : a ≠ [] := hseg a (by simp [hsplit])
        have hbne : b ≠ [] := hseg b (by simp [hsplit])
        have hPeq : P = pre ++ '/' :: (a ++ '/' :: b) := by
          rw [hP, hpre₁]
          simp
        have hpre : ∀ seg ∈ split '/' pre, seg ≠ [] := by
          intro seg hmem
          exact hseg seg (by simp [hsplit, hmem])
        have hrep : replace reParentCollection P = pre := by
          rw [hPeq]
          exact replaceFrom_reParentCollection_two true pre a b hane ha hbne hb
        have hpath : (Reference.constructor pre db).path = pre :=
          (constructor_path pre db).trans (normalize_clean pre (segs_head pre hpre) (segs_last pre hpre))
        refine ⟨Reference.constructor pre db, a, b, ?_, rfl, ?_, ?_, ?_⟩
        · rw [hpc, hrep]
        · rw [hpath, hsplit]
          simp [List.dropLast_append_cons]
        · rw [hpath, hsplit]
        · rw [hpath, hPeq]
  · intro hlen
    rcases split_last '/' P with ⟨hno, _⟩ | ⟨pre₁, b, _, _, hs⟩
    · have hrep : replace reParentCollection P = [] :=
        replace_reParentCollection_one P (segs_ne_nil P hseg) hno
      refine ⟨Reference.constructor [] db, ?_, rfl, rfl, rfl⟩
      rw [hpc, hrep]
    · rw [hs] at hlen
      have := split_ne_nil '/' pre₁
      cases hp : split '/' pre₁ with
      | nil => exact absurd hp this
      | cons y ys =>
        rw [hp] at hlen
        simp at hlen

/-- Witness for C3: `parentCollection` of `a/b/c/d/e` is `a/b/c`, and
`parentCollection` of `col` is the root. -/
theorem C3_parentCollection_of_collection_witness :
    (∃ p a b, (Reference.constructor "a/b/c/d/e".toList exampleDb).parentCollection = .ok p ∧
      p.db = exampleDb ∧
      split '/' p.path
        = ((split '/' (Reference.constructor "a/b/c/d/e".toList exampleDb).path).dropLast).dropLast ∧
      split '/' (Reference.constructor "a/b/c/d/e".toList exampleDb).path
        = split '/' p.path ++ [a, b] ∧
      (Reference.constructor "a/b/c/d/e".toList exampleDb).path = p.path ++ '/' :: (a ++ '/' :: b)) ∧
    (∃ p, (Reference.constructor "col".toList exampleDb).parentCollection = .ok p ∧
      p.db = exampleDb ∧ p.path = [] ∧ p.isRoot = true) :=
  ⟨(C3_parentCollection_of_collection "a/b/c/d/e".toList exampleDb
      (by decide) (by decide) (by decide)).1 (by decide),
   (C3_parentCollection_of_collection "col".toList exampleDb
      (by decide) (by decide) (by decide)).2 (by decide)⟩

/-- C4: for a reference with a non-empty path, `isCollection` is true exactly
when the number of segments of the path, one more than the number of its
slashes, is odd; `col` and `col/doc/sub` are collections and `col/doc` is a
document. -/
theorem C4_isCollection_iff_odd :
    (∀ (raw : Str) (db : Database), (Reference.constructor raw db).path ≠ [] →
      (split '/' (Reference.constructor raw db).path).length
        = (Reference.constructor raw db).path.count '/' + 1 ∧
      ((Reference.constructor raw db).isCollection = true
        ↔ Odd ((Reference.constructor raw db).path.count '/' + 1))) ∧
    (∀ db : Database,
      (Reference.constructor "col".toList db).isCollection = true ∧
      (Reference.constructor "col/doc/sub".toList db).isCollection = true ∧
      (Reference.constructor "col/doc".toList db).isCollection = false) := by
  refine ⟨?_, fun db => ⟨?_, ?_, ?_⟩⟩
  · intro raw db _
    refine ⟨length_split _ _, ?_⟩
    rw [Reference.isCollection, length_split, Nat.odd_iff]
    simp
  · show ((split '/' (replace reTrailing (replace reLeading "col".toList))).length % 2 == 1)
      = true
    decide
  · show ((split '/' (replace reTrailing (replace reLeading "col/doc/sub".toList))).length
      % 2 == 1) = true
    decide
  · show ((split '/' (replace reTrailing (replace reLeading "col/doc".toList))).length
      % 2 == 1) = false
    decide

/-- Witness for C4: the path `col/doc/sub` has two slashes and three
segments, and is a collection. -/
theorem C4_isCollection_iff_odd_witness :
    (split '/' (Reference.constructor "col/doc/sub".toList exampleDb).path).length
      = (Reference.constructor "col/doc/sub".toList exampleDb).path.count '/' + 1 ∧
    ((Reference.constructor "col/doc/sub".toList exampleDb).isCollection = true
      ↔ Odd ((Reference.constructor "col/doc/sub".toList exampleDb).path.count '/' + 1)) :=
  C4_isCollection_iff_odd.1 "col/doc/sub".toList exampleDb (by decide)

/-- C5, counterexample: the constructor removes one leading slash only, so
the raw path `//a` is stored as `/a`, which begins with the separator (and
`a//` is stored as `a/`, which ends with it). -/
theorem C5_counterexample :
    (Reference.constructor "//a".toList exampleDb).path = "/a".toList ∧
    (Reference.constructor "//a".toList exampleDb).path.head? = some '/' ∧
    (Reference.constructor "a//".toList exampleDb).path = "a/".toList ∧
    (Reference.constructor "a//".toList exampleDb).path.getLast? = some '/' := by
  decide

/-- C5, amended: for every raw path that neither begins nor ends with two
slashes, the stored path neither begins nor ends with the separator. -/
theorem C5_normalised_path_has_no_outer_slash (raw : Str) (db : Database)
    (hlead : ¬ (['/', '/'] <+: raw)) (htrail : ¬ (['/', '/'] <:+ raw)) :
    (Reference.constructor raw db).path.head? ≠ some '/' ∧
    (Reference.constructor raw db).path.getLast? ≠ some '/' := by
  have hlead : ∀ t, raw ≠ '/' :: '/' :: t := fun t e => hlead ⟨t, by simp [e]⟩
  have htrail : ∀ t, raw ≠ t ++ ['/', '/'] := fun t e => htrail ⟨t, e.symm⟩
  rw [constructor_path, replace, replaceFrom_reTrailing]
  -- the path without its leading slash
  have h₁ : (replace reLeading raw).head? ≠ some '/' ∧
      ∀ t, replace reLeading raw ≠ t ++ ['/', '/'] := by
    cases raw with
    | nil => simp [replace_reLeading_other]
    | cons x xs =>
      by_cases hx : x = '/'
      · subst hx
        rw [replace_reLeading_slash]
        constructor
        · cases xs with
          | nil => simp
          | cons y ys =>
            intro e
            have hy : y = '/' := by simpa using e
            exact hlead ys (by rw [hy])
        · intro t e
          exact htrail ('/' :: t) (by simp [e])
      · rw [replace_reLeading_other _ (by simpa using hx)]
        exact ⟨by simpa using hx, htrail⟩
  generalize replace reLeading raw = s at h₁
  obtain ⟨hh, ht⟩ := h₁
  split
  · rename_i hl
    obtain ⟨ys, hys⟩ := List.getLast?_eq_some_iff.mp hl
    subst hys
    rw [List.dropLast_concat]
    constructor
    · cases ys with
      | nil => simp
      | cons y zs => simpa using hh
    · intro e
      obtain ⟨zs, hzs⟩ := List.getLast?_eq_some_iff.mp e
      exact ht zs (by simp [hzs])
  · rename_i hl
    exact ⟨hh, hl⟩

/-- Witness for C5: the raw path `/a/b/` is stored as `a/b`. -/
theorem C5_normalised_path_has_no_outer_slash_witness :
    (Reference.constructor "/a/b/".toList exampleDb).path.head? ≠ some '/' ∧
    (Reference.constructor "/a/b/".toList exampleDb).path.getLast? ≠ some '/' :=
  C5_normalised_path_has_no_outer_slash "/a/b/".toList exampleDb
    (by decide) (by decide)

/-- C6, counterexample: the reference built from `//a` has the path `/a`;
its child `b` has the path `a/b` and not `/a/b`, and its segments are not
the segments of the reference followed by `b`. -/
theorem C6_counterexample :
    (Reference.constructor "//a".toList exampleDb).path = "/a".toList ∧
    ((Reference.constructor "//a".toList exampleDb).child "b".toList).path = "a/b".toList ∧
    ((Reference.constructor "//a".toList exampleDb).child "b".toList).path
      ≠ (Reference.constructor "//a".toList exampleDb).path ++ '/' :: "b".toList ∧
    ((Reference.constructor "//a".toList exampleDb).child "b".toList).segments
      ≠ (Reference.constructor "//a".toList exampleDb).segments ++ split '/' "b".toList := by
  decide

/-- C6, amended: for every reference whose path does not begin with a slash
(the root included) and every sub-path `s` without an empty segment, written
with or without one leading slash, `child` returns a reference on the same
database whose path is `s` for the root and the path, a slash and `s`
otherwise, whose id is the last segment of `s`, and whose segments are those
of the reference followed by those of `s`. -/
theorem C6_child_appends (raw : Str) (db : Database) (s : Str) (lead : Bool)
    (hpath : (Reference.constructor raw db).path.head? ≠ some '/')
    (hs : ∀ seg ∈ split '/' s, seg ≠ []) :
    ((Reference.constructor raw db).child (if lead then '/' :: s else s)).db = db ∧
    ((Reference.constructor raw db).child (if lead then '/' :: s else s)).path
      = (if (Reference.constructor raw db).isRoot then s
         else (Reference.constructor raw db).path ++ '/' :: s) ∧
    ((Reference.constructor raw db).child (if lead then '/' :: s else s)).id
      = (split '/' s).getLastD [] ∧
    ((Reference.constructor raw db).child (if lead then '/' :: s else s)).segments
      = (Reference.constructor raw db).segments ++ split '/' s := by
  have hsne : s ≠ [] := segs_ne_nil s hs
  have hsh : s.head? ≠ some '/' := segs_head s hs
  have hsl : s.getLast? ≠ some '/' := segs_last s hs
  have hstrip : replace reLeading (if lead then '/' :: s else s) = s := by
    cases lead
    · simpa using replace_reLeading_other s hsh
    · simpa using replace_reLeading_slash s
  have hroot := constructor_isRoot raw db
  have hdb : (Reference.constructor raw db).db = db := rfl
  have hseg : (Reference.constructor raw db).segments
      = if (Reference.constructor raw db).isRoot then []
        else split '/' (Reference.constructor raw db).path := rfl
  have hchild : (Reference.constructor raw db).child (if lead then '/' :: s else s)
      = Reference.constructor ((Reference.constructor raw db).path ++ '/' :: s) db := by
    rw [Reference.child, hstrip, hdb]
  rw [hseg, hchild]
  generalize (Reference.constructor raw db).isRoot = root at hroot ⊢
  generalize (Reference.constructor raw db).path = P at hpath hroot ⊢
  -- the path of the child
  have hp : (Reference.constructor (P ++ '/' :: s) db).path = if root then s else P ++ '/' :: s := by
    rw [constructor_path]
    cases P with
    | nil =>
      have hr : root = true := by simpa using hroot
      rw [hr, List.nil_append, replace_reLeading_slash, replace, replaceFrom_reTrailing,
        if_neg hsl]
      rfl
    | cons x xs =>
      have hr : root = false := by simpa using hroot
      have hh : (x :: xs ++ '/' :: s).head? ≠ some '/' := by simpa using hpath
      have hl : (x :: xs ++ '/' :: s).getLast? ≠ some '/' := by
        rw [List.getLast?_append_of_ne_nil _ (by simp)]
        cases s with
        | nil => exact absurd rfl hsne
        | cons y ys => simpa [List.getLast?_cons_cons] using hsl
      rw [hr, normalize_clean _ hh hl]
      rfl
  have hsp : split '/' (if root then s else P ++ '/' :: s)
      = (if root then [] else split '/' P) ++ split '/' s := by
    cases root
    · simpa using split_append '/' P s
    · simp
  refine ⟨rfl, hp, ?_, ?_⟩
  · rw [constructor_id, hp, hsp]
    cases hq : split '/' s with
    | nil => exact absurd hq (split_ne_nil '/' s)
    | cons y ys =>
      simp only [List.getLastD_eq_getLast?]
      rw [List.getLast?_append_of_ne_nil _ (by simp)]
  · have hnr : (Reference.constructor (P ++ '/' :: s) db).isRoot = false := by
      rw [constructor_isRoot, hp]
      cases root <;> simp [hsne]
    rw [Reference.segments, hnr, hp, hsp]
    simp

/-- Witness for C6: the child `/sub/doc2` of `col/doc` is `col/doc/sub/doc2`. -/
theorem C6_child_appends_witness :
    ((Reference.constructor "col/doc".toList exampleDb).child
        (if true then '/' :: "sub/doc2".toList else "sub/doc2".toList)).db = exampleDb ∧
    ((Reference.constructor "col/doc".toList exampleDb).child
        (if true then '/' :: "sub/doc2".toList else "sub/doc2".toList)).path
      = (if (Reference.constructor "col/doc".toList exampleDb).isRoot then "sub/doc2".toList
         else (Reference.constructor "col/doc".toList exampleDb).path ++ '/' :: "sub/doc2".toList) ∧
    ((Reference.constructor "col/doc".toList exampleDb).child
        (if true then '/' :: "sub/doc2".toList else "sub/doc2".toList)).id
      = (split '/' "sub/doc2".toList).getLastD [] ∧
    ((Reference.constructor "col/doc".toList exampleDb).child
        (if true then '/' :: "sub/doc2".toList else "sub/doc2".toList)).segments
      = (Reference.constructor "col/doc".toList exampleDb).segments ++ split '/' "sub/doc2".toList :=
  C6_child_appends "col/doc".toList exampleDb "sub/doc2".toList true (by decide) (by decide)

/-- C7: the getter `parent` throws exactly when the reference is the root,
that is when its path is empty, and then with the error "Can't get parent of
a root collection"; `parentCollection` of the root throws the same error; for
every other reference `parent` returns a reference. -/
theorem C7_parent_throws_iff_root (raw : Str) (db : Database) :
    ((Reference.constructor raw db).isRoot = true ↔ (Reference.constructor raw db).path = []) ∧
    ((∃ e, (Reference.constructor raw db).parent = .error e) ↔ (Reference.constructor raw db).path = []) ∧
    ((Reference.constructor raw db).path = [] →
      (Reference.constructor raw db).parent
        = .error (.error "Can't get parent of a root collection") ∧
      (Reference.constructor raw db).parentCollection
        = .error (.error "Can't get parent of a root collection")) ∧
    ((Reference.constructor raw db).path ≠ [] → ∃ p, (Reference.constructor raw db).parent = .ok p) := by
  have hroot := constructor_isRoot raw db
  have hiff : (Reference.constructor raw db).isRoot = true ↔ (Reference.constructor raw db).path = [] := by
    rw [hroot]
    simp
  by_cases hp : (Reference.constructor raw db).path = []
  · have hr : (Reference.constructor raw db).isRoot = true := hiff.mpr hp
    have hpar : (Reference.constructor raw db).parent
        = .error (.error "Can't get parent of a root collection") := by
      simp [Reference.parent, hr]
    have hpc : (Reference.constructor raw db).parentCollection
        = .error (.error "Can't get parent of a root collection") := by
      simp [Reference.parentCollection, hr]
    exact ⟨hiff, ⟨fun _ => hp, fun _ => ⟨_, hpar⟩⟩, fun _ => ⟨hpar, hpc⟩,
      fun h => absurd hp h⟩
  · have hr : (Reference.constructor raw db).isRoot = false := by
      cases h : (Reference.constructor raw db).isRoot with
      | false => rfl
      | true => exact absurd (hiff.mp h) hp
    have hpar : (Reference.constructor raw db).parent
        = .ok (Reference.constructor (replace reParent (Reference.constructor raw db).path)
            (Reference.constructor raw db).db) := by
      simp [Reference.parent, hr]
    refine ⟨hiff, ⟨?_, fun h => absurd h hp⟩, fun h => absurd h hp, fun _ => ⟨_, hpar⟩⟩
    rintro ⟨e, he⟩
    rw [hpar] at he
    cases he

/-- Witness for C7: `parent` and `parentCollection` of the root throw, and
`parent` of `col/doc` returns. -/
theorem C7_parent_throws_iff_root_witness :
    ((Reference.constructor [] exampleDb).parent
        = .error (.error "Can't get parent of a root collection") ∧
      (Reference.constructor [] exampleDb).parentCollection
        = .error (.error "Can't get parent of a root collection")) ∧
    (∃ p, (Reference.constructor "col/doc".toList exampleDb).parent = .ok p) :=
  ⟨(C7_parent_throws_iff_root [] exampleDb).2.2.1 (by decide),
   (C7_parent_throws_iff_root "col/doc".toList exampleDb).2.2.2 (by decide)⟩

/-- C8: the name of a reference is the root path of its database, a slash
and its normalised path, the raw path without one leading and one trailing
slash; `toJSON` returns the object whose only key is `referenceValue`, with
the name as its value; and for a document reference the cursor that
`startAt` or `endAt` compiles to, in the Query of the specification, has
`before: true` and one value, whose wire object is this object. -/
theorem C8_name_and_toJSON (raw : Str) (db : Database) :
    (Reference.constructor raw db).name
      = db.rootPath ++ "/".toList ++ (Reference.constructor raw db).path ∧
    (Reference.constructor raw db).path
      = (if (if raw.head? = some '/' then raw.tail else raw).getLast? = some '/'
         then (if raw.head? = some '/' then raw.tail else raw).dropLast
         else (if raw.head? = some '/' then raw.tail else raw)) ∧
    (Reference.constructor raw db).toJSON
      = [("referenceValue", (Reference.constructor raw db).name)] ∧
    (Reference.constructor raw db).toJSON
      = [("referenceValue",
          db.rootPath ++ "/".toList ++ (Reference.constructor raw db).path)] ∧
    ((Reference.constructor raw db).isCollection = false →
      ∀ argument : String,
        compileCursor argument (.ref (Reference.constructor raw db))
          = .ok { values := [.referenceValue (Reference.constructor raw db).name],
                  before := true } ∧
        ∃ c, compileCursor argument (.ref (Reference.constructor raw db)) = .ok c ∧
          c.toJSON
            = ([(Reference.constructor raw db).toJSON.map (fun p => (p.1, JsVal.str p.2))],
               true)) := by
  have hlead : replace reLeading raw = if raw.head? = some '/' then raw.tail else raw := by
    cases raw with
    | nil => simp [replace_reLeading_other]
    | cons x xs =>
      by_cases hx : x = '/'
      · subst hx
        simp [replace_reLeading_slash]
      · rw [replace_reLeading_other _ (by simpa using hx)]
        simp [hx]
  have hcur : (Reference.constructor raw db).isCollection = false →
      ∀ argument : String,
        compileCursor argument (.ref (Reference.constructor raw db))
          = .ok { values := [.referenceValue (Reference.constructor raw db).name],
                  before := true } := by
    intro hdoc argument
    simp [compileCursor, hdoc, encodeValue]
  refine ⟨?_, ?_, rfl, ?_, ?_⟩
  · simp [Reference.constructor]
  · rw [constructor_path, replace, replaceFrom_reTrailing, hlead]
  · simp [Reference.toJSON, Reference.constructor]
  · intro hdoc argument
    refine ⟨hcur hdoc argument, _, hcur hdoc argument, ?_⟩
    simp [Cursor.toJSON, TypedValue.toJSON, Reference.toJSON]

/-- Witness for C8: the document `col/doc` of the tests: its name, and the
cursor of `startAt`, whose one value is the object of `toJSON`. -/
theorem C8_name_and_toJSON_witness :
    (Reference.constructor "col/doc".toList exampleDb).name
      = "projects/projectId/databases/(default)/documents/col/doc".toList ∧
    (Reference.constructor "col/doc".toList exampleDb).toJSON
      = [("referenceValue",
          "projects/projectId/databases/(default)/documents/col/doc".toList)] ∧
    compileCursor "startAt" (.ref (Reference.constructor "col/doc".toList exampleDb))
      = .ok { values := [.referenceValue (Reference.constructor "col/doc".toList exampleDb).name],
              before := true } ∧
    ∃ c, compileCursor "startAt" (.ref (Reference.constructor "col/doc".toList exampleDb))
        = .ok c ∧
      c.toJSON
        = ([(Reference.constructor "col/doc".toList exampleDb).toJSON.map
              (fun p => (p.1, JsVal.str p.2))], true) :=
  ⟨by decide, by decide,
   ((C8_name_and_toJSON "col/doc".toList exampleDb).2.2.2.2 (by decide) "startAt").1,
   ((C8_name_and_toJSON "col/doc".toList exampleDb).2.2.2.2 (by decide) "startAt").2⟩

/-- C9: the id of a reference is the last segment of its path: it has no
slash, and the path is the id itself when the path has no slash and else
ends with a slash and the id; the id of `col` is `col`. -/
theorem C9_id_is_last_segment (raw : Str) (db : Database) :
    (Reference.constructor raw db).id = (split '/' (Reference.constructor raw db).path).getLastD [] ∧
    '/' ∉ (Reference.constructor raw db).id ∧
    (('/' ∉ (Reference.constructor raw db).path ∧
        (Reference.constructor raw db).id = (Reference.constructor raw db).path) ∨
      ∃ pre, (Reference.constructor raw db).path = pre ++ '/' :: (Reference.constructor raw db).id) ∧
    (Reference.constructor "col".toList db).id = "col".toList := by
  have hid := constructor_id raw db
  generalize (Reference.constructor raw db).id = i at hid ⊢
  generalize (Reference.constructor raw db).path = P at hid ⊢
  have hcol : (Reference.constructor "col".toList db).id = "col".toList := by
    show (split '/' (replace reTrailing (replace reLeading "col".toList))).getLastD []
      = "col".toList
    decide
  rcases split_last '/' P with ⟨hno, hs⟩ | ⟨pre, l, hP, hl, hs⟩
  · have hi : i = P := by rw [hid, hs]; rfl
    exact ⟨hid, hi ▸ hno, Or.inl ⟨hno, hi⟩, hcol⟩
  · have hi : i = l := by
      rw [hid, hs]
      simp
    exact ⟨hid, hi ▸ hl, Or.inr ⟨pre, hi ▸ hP⟩, hcol⟩

/-- C10: on a collection reference each of `set`, `update` and `delete`
throws its own error and issues no request; on a document reference each
returns without throwing and issues exactly one request. -/
theorem C10_mutations_guard_collections {Obj : Type} (h : Helpers Obj)
    (raw : Str) (db : Database) (object : Obj) (log : List Request) :
    ((Reference.constructor raw db).isCollection = true →
      (Reference.constructor raw db).set h object log
        = (.error (.error "Can't set a collection"), log) ∧
      (Reference.constructor raw db).update h object log
        = (.error (.error "Can't update a collection"), log) ∧
      (Reference.constructor raw db).delete log
        = (.error (.error "Can't delete a collection"), log)) ∧
    ((Reference.constructor raw db).isCollection = false →
      (∃ req, (Reference.constructor raw db).set h object log = (.ok (), log ++ [req])) ∧
      (∃ req, (Reference.constructor raw db).update h object log = (.ok (), log ++ [req])) ∧
      (∃ req, (Reference.constructor raw db).delete log = (.ok (), log ++ [req]))) := by
  constructor
  · intro hc
    simp [Reference.set, Reference.update, Reference.delete, hc]
  · intro hc
    simp [Reference.set, Reference.update, Reference.delete, hc]

/-- Witness for C10: the three methods on the collection `col` and on the
document `col/doc`, with no request issued before. -/
theorem C10_mutations_guard_collections_witness :
    ((Reference.constructor "col".toList exampleDb).set
        (Helpers.mk (fun s : Str => s) (fun s : Str => s)) "x".toList []
        = (.error (.error "Can't set a collection"), []) ∧
      (Reference.constructor "col".toList exampleDb).update
        (Helpers.mk (fun s : Str => s) (fun s : Str => s)) "x".toList []
        = (.error (.error "Can't update a collection"), []) ∧
      (Reference.constructor "col".toList exampleDb).delete []
        = (.error (.error "Can't delete a collection"), [])) ∧
    ((∃ req, (Reference.constructor "col/doc".toList exampleDb).set
        (Helpers.mk (fun s : Str => s) (fun s : Str => s)) "x".toList []
        = (.ok (), [] ++ [req])) ∧
      (∃ req, (Reference.constructor "col/doc".toList exampleDb).update
        (Helpers.mk (fun s : Str => s) (fun s : Str => s)) "x".toList []
        = (.ok (), [] ++ [req])) ∧
      (∃ req, (Reference.constructor "col/doc".toList exampleDb).delete [] = (.ok (), [] ++ [req]))) :=
  ⟨(C10_mutations_guard_collections (Helpers.mk (fun s : Str => s) (fun s : Str => s))
      "col".toList exampleDb "x".toList []).1 (by decide),
   (C10_mutations_guard_collections (Helpers.mk (fun s : Str => s) (fun s : Str => s))
      "col/doc".toList exampleDb "x".toList []).2 (by decide)⟩

/-! ### Facts about the Query of the specification -/

theorem ofSymbol_symbol (op : Operator) : Operator.ofSymbol op.symbol = some op := by
  cases op <;> rfl

theorem validateFrom_collection (r : Reference) (hr : r.isCollection = true) :
    validateFrom (.ref r) = .ok [(r, none)] := by
  simp [validateFrom, validateFromItem, hr]

theorem validateFromItem_cases (v : JsVal) :
    validateFromItem v = .error fromError ∨ ∃ item, validateFromItem v = .ok item := by
  cases v <;> first
    | exact Or.inl rfl
    | (rename_i r
       by_cases hr : r.isCollection = true
       · exact Or.inr ⟨(r, none), by simp [validateFromItem, hr]⟩
       · exact Or.inl (by simp [validateFromItem, hr]))

theorem compileConditions_of_forall₂ (cs : List Condition) (nodes : List Filter)
    (h : List.Forall₂ (fun c n => compileCondition c = .ok n) cs nodes) :
    compileConditions cs = .ok nodes := by
  induction h with
  | nil => rfl
  | cons hc _ ih => simp [compileConditions, hc, ih]

theorem compileCondition_not_composite (c : Condition) (node : Filter)
    (h : compileCondition c = .ok node) (op : CompositeOperator) (fs : List Filter) :
    node ≠ .compositeFilter op fs := by
  intro e
  subst e
  unfold compileCondition at h
  split at h
  · split at h
    · split at h
      · split at h <;> simp at h
      · split at h <;> simp at h
      · split at h <;> simp at h
    · simp at h
  · simp at h

/-- C11, against the Query of the specification: with no other option, the
constructor fails with the collection-expected error when `from` is a
Reference to a document, when it is neither a Reference nor an array, and
when it is an array with an element that is not a Reference to a collection;
when `from` is a Reference to a collection it succeeds and the compiled
`from` is the one entry with the id of the reference and `allDescendants`
unset; the setter `from` puts that entry in the place of whatever was there
before. -/
theorem C11_from_validation :
    (∀ r : Reference, r.isCollection = false →
      Query.constructor { fromArg := .ref r, whereArg := none } = .error fromError) ∧
    (∀ v : JsVal, (∀ r, v ≠ .ref r) → (∀ items, v ≠ .arr items) →
      Query.constructor { fromArg := v, whereArg := none } = .error fromError) ∧
    (∀ (pre post : List JsVal) (x : JsVal),
      (∀ r, x = .ref r → r.isCollection = false) →
      Query.constructor { fromArg := .arr (pre ++ x :: post), whereArg := none }
        = .error fromError) ∧
    (∀ r : Reference, r.isCollection = true →
      ∃ q, Query.constructor { fromArg := .ref r, whereArg := none } = .ok q ∧
        q.toJSON.fromEntries = [{ collectionId := r.id, allDescendants := none }]) ∧
    (∀ (q : Query) (r : Reference), r.isCollection = true →
      ∃ q', q.from (.ref r) = .ok q' ∧
        q'.toJSON.fromEntries = [{ collectionId := r.id, allDescendants := none }] ∧
        q'.toJSON.whereFilter = q.toJSON.whereFilter) ∧
    fromError = .invalidArgument "from" "Expected a reference to a collection" := by
  refine ⟨?_, ?_, ?_, ?_, ?_, rfl⟩
  · intro r hr
    simp [Query.constructor, validateFrom, validateFromItem, hr]
  · intro v h₁ h₂
    cases v <;> first
      | exact absurd rfl (h₁ _)
      | exact absurd rfl (h₂ _)
      | rfl
  · intro pre post x hx
    have hitem : validateFromItem x = .error fromError := by
      cases x <;> first
        | rfl
        | (rename_i r; simp [validateFromItem, hx r rfl])
    have hlist : validateFromItems (pre ++ x :: post) = .error fromError := by
      induction pre with
      | nil => simp [validateFromItems, hitem]
      | cons y ys ih =>
        rw [List.cons_append, validateFromItems]
        rcases validateFromItem_cases y with hy | ⟨item, hy⟩
        · simp [hy]
        · simp [hy, ih]
    simp [Query.constructor, validateFrom, hlist]
  · intro r hr
    refine ⟨{ fromRefs := [(r, none)], whereNode := none }, ?_, ?_⟩
    · simp [Query.constructor, validateFrom_collection r hr, compileWhere]
    · simp [Query.toJSON]
  · intro q r hr
    refine ⟨{ q with fromRefs := [(r, none)] }, ?_, ?_, ?_⟩
    · simp [Query.from, validateFrom_collection r hr]
    · simp [Query.toJSON]
    · simp [Query.toJSON]

/-- Witness for C11: the cases of the tests: `col/doc` and `42` fail, `col`
succeeds with the collection id `col`, and the setter called with `col` on a
query built from `col2` leaves the entry of `col`. -/
theorem C11_from_validation_witness :
    Query.constructor
        { fromArg := .ref (Reference.constructor "col/doc".toList exampleDb),
          whereArg := none } = .error fromError ∧
    Query.constructor { fromArg := .int 42, whereArg := none } = .error fromError ∧
    Query.constructor
        { fromArg := .arr ([] ++ JsVal.int 42 :: []), whereArg := none } = .error fromError ∧
    (∃ q, Query.constructor
        { fromArg := .ref (Reference.constructor "col".toList exampleDb),
          whereArg := none } = .ok q ∧
      q.toJSON.fromEntries
        = [{ collectionId := (Reference.constructor "col".toList exampleDb).id,
             allDescendants := none }]) ∧
    (∃ q', Query.from
        { fromRefs := [(Reference.constructor "col2".toList exampleDb, none)],
          whereNode := none }
        (.ref (Reference.constructor "col".toList exampleDb)) = .ok q' ∧
      q'.toJSON.fromEntries
        = [{ collectionId := (Reference.constructor "col".toList exampleDb).id,
             allDescendants := none }] ∧
      q'.toJSON.whereFilter
        = (Query.toJSON
            { fromRefs := [(Reference.constructor "col2".toList exampleDb, none)],
              whereNode := none }).whereFilter) ∧
    (Reference.constructor "col".toList exampleDb).id = "col".toList :=
  ⟨C11_from_validation.1 _ (by decide),
   C11_from_validation.2.1 (.int 42) (by simp) (by simp),
   C11_from_validation.2.2.1 [] [] (.int 42) (by simp),
   C11_from_validation.2.2.2.1 _ (by decide),
   C11_from_validation.2.2.2.2.1 _ _ (by decide),
   by decide⟩

/-- C12, against the Query of the specification: for a field path `f`, a
recognised operator and a collection as `from`, the condition
`[f, op, null]` compiles to the unary filter of `f` with IS_NULL, and
`[f, op, NaN]` to the one with IS_NAN, when the operator is `==`; with any
other operator the constructor fails with the error of `where`, "Null and
NaN can only be used with the == operator". -/
theorem C12_null_and_nan_need_equality (f : Str) (op : Operator) (r : Reference)
    (hr : r.isCollection = true) :
    (Query.constructor
        { fromArg := .ref r,
          whereArg := some (.short
            { fieldPath := .str f, op := .str op.symbol, value := .null }) }).map
        (fun q => q.toJSON.whereFilter)
      = (if op = .EQUAL then .ok (some (.unaryFilter f .IS_NULL))
         else .error (.invalidArgument "where"
           "Null and NaN can only be used with the == operator")) ∧
    (Query.constructor
        { fromArg := .ref r,
          whereArg := some (.short
            { fieldPath := .str f, op := .str op.symbol, value := .nan }) }).map
        (fun q => q.toJSON.whereFilter)
      = (if op = .EQUAL then .ok (some (.unaryFilter f .IS_NAN))
         else .error (.invalidArgument "where"
           "Null and NaN can only be used with the == operator")) ∧
    (op = .EQUAL ↔ op.symbol = "==".toList) := by
  refine ⟨?_, ?_, ?_⟩
  · by_cases hop : op = .EQUAL <;>
      simp [Query.constructor, validateFrom_collection r hr, compileWhere,
        WhereArg.conditions, compileConditions, compileCondition, ofSymbol_symbol,
        filterRoot, Query.toJSON, Except.map, hop]
  · by_cases hop : op = .EQUAL <;>
      simp [Query.constructor, validateFrom_collection r hr, compileWhere,
        WhereArg.conditions, compileConditions, compileCondition, ofSymbol_symbol,
        filterRoot, Query.toJSON, Except.map, hop]
  · cases op <;> decide

/-- Witness for C12: the conditions of the tests, `['field.path', '==', null]`
and `['path', '>=', null]`, with `col` as `from`. -/
theorem C12_null_and_nan_need_equality_witness :
    (Query.constructor
        { fromArg := .ref (Reference.constructor "col".toList exampleDb),
          whereArg := some (.short
            { fieldPath := .str "field.path".toList, op := .str Operator.EQUAL.symbol,
              value := .null }) }).map (fun q => q.toJSON.whereFilter)
      = .ok (some (.unaryFilter "field.path".toList .IS_NULL)) ∧
    (Query.constructor
        { fromArg := .ref (Reference.constructor "col".toList exampleDb),
          whereArg := some (.short
            { fieldPath := .str "path".toList,
              op := .str Operator.GREATER_THAN_OR_EQUAL.symbol,
              value := .null }) }).map (fun q => q.toJSON.whereFilter)
      = .error (.invalidArgument "where"
          "Null and NaN can only be used with the == operator") :=
  ⟨(C12_null_and_nan_need_equality "field.path".toList .EQUAL
      (Reference.constructor "col".toList exampleDb) (by decide)).1,
   (C12_null_and_nan_need_equality "path".toList .GREATER_THAN_OR_EQUAL
      (Reference.constructor "col".toList exampleDb) (by decide)).1⟩

/-- C13, against the Query of the specification: with a collection as
`from`, the short syntax `where: c` and the compound syntax `where: [c]`
give the same compiled `where`; for a valid triple it is the node of the
triple itself, which is no composite filter; for two or more valid triples it
is one composite filter with the operator AND whose children are the nodes of
the triples in their order. -/
theorem C13_where_syntaxes (r : Reference) (hr : r.isCollection = true) :
    (∀ c : Condition,
      (Query.constructor { fromArg := .ref r, whereArg := some (.short c) }).map
          (fun q => q.toJSON.whereFilter)
        = (Query.constructor { fromArg := .ref r, whereArg := some (.compound [c]) }).map
          (fun q => q.toJSON.whereFilter)) ∧
    (∀ (c : Condition) (node : Filter), compileCondition c = .ok node →
      (Query.constructor { fromArg := .ref r, whereArg := some (.short c) }).map
          (fun q => q.toJSON.whereFilter) = .ok (some node) ∧
      (Query.constructor { fromArg := .ref r, whereArg := some (.compound [c]) }).map
          (fun q => q.toJSON.whereFilter) = .ok (some node) ∧
      ∀ op fs, node ≠ .compositeFilter op fs) ∧
    (∀ (cs : List Condition) (nodes : List Filter),
      List.Forall₂ (fun c n => compileCondition c = .ok n) cs nodes → 2 ≤ cs.length →
      (Query.constructor { fromArg := .ref r, whereArg := some (.compound cs) }).map
          (fun q => q.toJSON.whereFilter)
        = .ok (some (.compositeFilter .AND nodes))) := by
  refine ⟨fun c => rfl, ?_, ?_⟩
  · intro c node hc
    have h : (Query.constructor { fromArg := .ref r, whereArg := some (.short c) }).map
        (fun q => q.toJSON.whereFilter) = .ok (some node) := by
      simp [Query.constructor, validateFrom_collection r hr, compileWhere,
        WhereArg.conditions, compileConditions, hc, filterRoot, Query.toJSON, Except.map]
    exact ⟨h, h, compileCondition_not_composite c node hc⟩
  · intro cs nodes hall hlen
    have hcs := compileConditions_of_forall₂ cs nodes hall
    have hn : 2 ≤ nodes.length := by
      rw [← hall.length_eq]
      exact hlen
    have hroot : filterRoot nodes = some (.compositeFilter .AND nodes) := by
      match nodes, hn with
      | _ :: _ :: _, _ => rfl
    simp [Query.constructor, validateFrom_collection r hr, compileWhere,
      WhereArg.conditions, hcs, hroot, Query.toJSON, Except.map]

/-- Witness for C13: the triple `['field.path', '>=', 11]` of the tests in
both syntaxes, and the three triples of the composite test. -/
theorem C13_where_syntaxes_witness :
    ((Query.constructor
        { fromArg := .ref (Reference.constructor "col".toList exampleDb),
          whereArg := some (.short
            { fieldPath := .str "field.path".toList, op := .str ">=".toList,
              value := .int 11 }) }).map (fun q => q.toJSON.whereFilter)
      = .ok (some (.fieldFilter "field.path".toList .GREATER_THAN_OR_EQUAL
          (.integerValue "11"))) ∧
    (Query.constructor
        { fromArg := .ref (Reference.constructor "col".toList exampleDb),
          whereArg := some (.compound
            [{ fieldPath := .str "field.path".toList, op := .str ">=".toList,
               value := .int 11 }]) }).map (fun q => q.toJSON.whereFilter)
      = .ok (some (.fieldFilter "field.path".toList .GREATER_THAN_OR_EQUAL
          (.integerValue "11"))) ∧
    ∀ op fs, Filter.fieldFilter "field.path".toList .GREATER_THAN_OR_EQUAL
      (.integerValue "11") ≠ .compositeFilter op fs) ∧
    (Query.constructor
        { fromArg := .ref (Reference.constructor "col".toList exampleDb),
          whereArg := some (.compound
            [{ fieldPath := .str "field.nan".toList, op := .str "==".toList, value := .nan },
             { fieldPath := .str "field.null".toList, op := .str "==".toList, value := .null },
             { fieldPath := .str "field.path".toList, op := .str "==".toList,
               value := .int 42 }]) }).map (fun q => q.toJSON.whereFilter)
      = .ok (some (.compositeFilter .AND
          [.unaryFilter "field.nan".toList .IS_NAN,
           .unaryFilter "field.null".toList .IS_NULL,
           .fieldFilter "field.path".toList .EQUAL (.integerValue "42")])) :=
  ⟨(C13_where_syntaxes (Reference.constructor "col".toList exampleDb) (by decide)).2.1
      { fieldPath := .str "field.path".toList, op := .str ">=".toList, value := .int 11 }
      (.fieldFilter "field.path".toList .GREATER_THAN_OR_EQUAL (.integerValue "11")) rfl,
   (C13_where_syntaxes (Reference.constructor "col".toList exampleDb) (by decide)).2.2
      _ _ (.cons rfl (.cons rfl (.cons rfl .nil))) (by decide)⟩

/-! ### Facts about object literals -/

theorem get_cons_of_ne (k key : String) (v : JsVal) (o : Obj) (h : k ≠ key) :
    Obj.get ((k, v) :: o) key = Obj.get o key := by
  rw [Obj.get]
  cases Obj.get o key <;> simp [h]

theorem get_cons_self (k : String) (v : JsVal) (o : Obj) :
    Obj.get ((k, v) :: o) k = some ((Obj.get o k).getD v) := by
  rw [Obj.get]
  cases Obj.get o k <;> simp

/-- C14, counterexample: with `col` as the reference and the options
`{ from: [col2] }`, the configuration given to the constructor of Query has
`[col2]` as `from`, and `col2` is another reference than `col`. -/
theorem C14_counterexample :
    Obj.get
        (Reference.query (fun cfg => cfg) (Reference.constructor "col".toList exampleDb)
          (some [("from", .arr [.ref (Reference.constructor "col2".toList exampleDb)])]))
        "from"
      = some (.arr [.ref (Reference.constructor "col2".toList exampleDb)]) ∧
    (Reference.constructor "col2".toList exampleDb).path
      ≠ (Reference.constructor "col".toList exampleDb).path :=
  ⟨rfl, by decide⟩

/-- C14, amended: `query(options)` gives the constructor of Query the
configuration `{ from: [this], ...options }`: its `from` is the one-element
list of the reference when the options have no key `from`, and the `from` of
the options when they have one; every other key has the value it has in the
options. -/
theorem C14_query_configuration {Q : Type} (newQuery : Obj → Q) (r : Reference)
    (options : Option Obj) :
    ∃ cfg : Obj, r.query newQuery options = newQuery cfg ∧
      (Obj.get (options.getD []) "from" = none →
        Obj.get cfg "from" = some (.arr [.ref r])) ∧
      (∀ v, Obj.get (options.getD []) "from" = some v → Obj.get cfg "from" = some v) ∧
      (∀ key, key ≠ "from" → Obj.get cfg key = Obj.get (options.getD []) key) := by
  refine ⟨("from", JsVal.arr [JsVal.ref r]) :: options.getD [], rfl, ?_, ?_, ?_⟩
  · intro h
    rw [get_cons_self, h]
    rfl
  · intro v h
    rw [get_cons_self, h]
    rfl
  · intro key hkey
    exact get_cons_of_ne _ _ _ _ (Ne.symm hkey)

/-- Witness for C14: the query of `col` with the options `{ limit: 5 }`. -/
theorem C14_query_configuration_witness :
    ∃ cfg : Obj,
      Reference.query (fun cfg => cfg) (Reference.constructor "col".toList exampleDb)
          (some [("limit", .int 5)]) = cfg ∧
      Obj.get cfg "from"
        = some (.arr [.ref (Reference.constructor "col".toList exampleDb)]) ∧
      Obj.get cfg "limit" = Obj.get [("limit", .int 5)] "limit" := by
  obtain ⟨cfg, h₁, h₂, _, h₄⟩ := C14_query_configuration (fun cfg => cfg)
    (Reference.constructor "col".toList exampleDb) (some [("limit", .int 5)])
  exact ⟨cfg, h₁, h₂ rfl, h₄ "limit" (by decide)⟩

/-! ### Facts about `child` -/

/-- The constructor applied to the path of a reference that neither begins
nor ends with a slash gives the reference back. -/
theorem constructor_of_path (raw : Str) (db : Database)
    (hh : (Reference.constructor raw db).path.head? ≠ some '/')
    (hl : (Reference.constructor raw db).path.getLast? ≠ some '/') :
    Reference.constructor (Reference.constructor raw db).path db
      = Reference.constructor raw db := by
  have e := normalize_clean _ hh hl
  rw [constructor_path] at e
  simp only [Reference.constructor, e]

/-- The child of a reference for a segment without a slash. -/
theorem child_of_segment (raw : Str) (db : Database) (s : Str) (hs : '/' ∉ s) :
    (Reference.constructor raw db).child s
      = Reference.constructor ((Reference.constructor raw db).path ++ '/' :: s) db := by
  rw [Reference.child, replace_reLeading_other s (noslash_head s hs)]
  rfl

theorem split_noslash (s : Str) (hs : '/' ∉ s) : split '/' s = [s] := by
  rcases split_last '/' s with ⟨_, h⟩ | ⟨pre, l, e, _, _⟩
  · exact h
  · exact absurd (by simp [e]) hs

/-- C15, counterexample: the root has the empty path, and `isCollection` is
true for it. -/
theorem C15_counterexample :
    (Reference.constructor [] exampleDb).path = [] ∧
    (Reference.constructor [] exampleDb).isRoot = true ∧
    (Reference.constructor [] exampleDb).isCollection = true := by
  decide

/-- C15, amended: the root is classified by the same rule as every other
reference, the parity of the length of `path.split('/')`; the empty path
splits into one segment, the empty one, and one is odd, so `isCollection` is
true for the root. -/
theorem C15_root_is_collection (raw : Str) (db : Database)
    (hroot : (Reference.constructor raw db).isRoot = true) :
    (Reference.constructor raw db).path = [] ∧
    split '/' (Reference.constructor raw db).path = [[]] ∧
    (Reference.constructor raw db).isCollection
      = ((split '/' (Reference.constructor raw db).path).length % 2 == 1) ∧
    (Reference.constructor raw db).isCollection = true := by
  have hp : (Reference.constructor raw db).path = [] := by
    rw [constructor_isRoot] at hroot
    simpa using hroot
  refine ⟨hp, by rw [hp]; rfl, rfl, ?_⟩
  rw [Reference.isCollection, hp]
  rfl

/-- Witness for C15: the reference built from `/` is the root. -/
theorem C15_root_is_collection_witness :
    (Reference.constructor "/".toList exampleDb).path = [] ∧
    split '/' (Reference.constructor "/".toList exampleDb).path = [[]] ∧
    (Reference.constructor "/".toList exampleDb).isCollection
      = ((split '/' (Reference.constructor "/".toList exampleDb).path).length % 2 == 1) ∧
    (Reference.constructor "/".toList exampleDb).isCollection = true :=
  C15_root_is_collection "/".toList exampleDb (by decide)

/-- C16: `set` either throws for a collection and issues no request, or
issues the one request with the method PATCH to the endpoint of the
reference; no request of `set` has the method POST. -/
theorem C16_set_uses_patch {Obj : Type} (h : Helpers Obj) (raw : Str) (db : Database)
    (object : Obj) (log : List Request) :
    (Reference.constructor raw db).set h object log
      = (if (Reference.constructor raw db).isCollection
         then (.error (.error "Can't set a collection"), log)
         else (.ok (),
           log ++ [{ url := (Reference.constructor raw db).endpoint
                     method := "PATCH"
                     body := some (h.encodeBody object) }])) ∧
    (∀ req, req ∈ ((Reference.constructor raw db).set h object log).2 →
      req ∈ log ∨ (req.method = "PATCH" ∧ req.url = (Reference.constructor raw db).endpoint)) ∧
    (∀ req, req ∈ ((Reference.constructor raw db).set h object log).2 →
      req.method = "POST" → req ∈ log) := by
  have hset : (Reference.constructor raw db).set h object log
      = (if (Reference.constructor raw db).isCollection
         then (.error (.error "Can't set a collection"), log)
         else (.ok (),
           log ++ [{ url := (Reference.constructor raw db).endpoint
                     method := "PATCH"
                     body := some (h.encodeBody object) }])) := by
    unfold Reference.set
    cases (Reference.constructor raw db).isCollection <;> simp
  refine ⟨hset, ?_, ?_⟩
  · intro req hreq
    rw [hset] at hreq
    cases hc : (Reference.constructor raw db).isCollection
    · rw [hc] at hreq
      simp only [Bool.false_eq_true, if_false, List.mem_append, List.mem_singleton] at hreq
      rcases hreq with h₁ | h₁
      · exact Or.inl h₁
      · exact Or.inr (by simp [h₁])
    · rw [hc] at hreq
      exact Or.inl (by simpa using hreq)
  · intro req hreq hpost
    rw [hset] at hreq
    cases hc : (Reference.constructor raw db).isCollection
    · rw [hc] at hreq
      simp only [Bool.false_eq_true, if_false, List.mem_append, List.mem_singleton] at hreq
      rcases hreq with h₁ | h₁
      · exact h₁
      · rw [h₁] at hpost
        simp at hpost
    · rw [hc] at hreq
      simpa using hreq

/-- Witness for C16: `set` on the document `col/doc` with no request issued
before: the one request has the method PATCH and goes to the endpoint of the
document. -/
theorem C16_set_uses_patch_witness :
    (Reference.constructor "col/doc".toList exampleDb).set
        (Helpers.mk (fun s : Str => s) (fun s : Str => s)) "x".toList []
      = (.ok (), [] ++ [{ url := (Reference.constructor "col/doc".toList exampleDb).endpoint
                          method := "PATCH"
                          body := some "x".toList }]) ∧
    ((⟨(Reference.constructor "col/doc".toList exampleDb).endpoint, "PATCH",
        some "x".toList⟩ : Request) ∈ [] ∨
      ((⟨(Reference.constructor "col/doc".toList exampleDb).endpoint, "PATCH",
          some "x".toList⟩ : Request).method = "PATCH" ∧
        (⟨(Reference.constructor "col/doc".toList exampleDb).endpoint, "PATCH",
          some "x".toList⟩ : Request).url
          = (Reference.constructor "col/doc".toList exampleDb).endpoint)) :=
  ⟨(C16_set_uses_patch (Helpers.mk (fun s : Str => s) (fun s : Str => s))
      "col/doc".toList exampleDb "x".toList []).1,
   (C16_set_uses_patch (Helpers.mk (fun s : Str => s) (fun s : Str => s))
      "col/doc".toList exampleDb "x".toList []).2.1 _ (by decide)⟩

/-- C17: for a reference that is not the root and whose path neither begins
nor ends with a slash, and a non-empty segment without a slash, the parent
of the child is the reference itself: the same path, id, name and
endpoint. -/
theorem C17_child_then_parent (raw : Str) (db : Database) (s : Str)
    (hroot : (Reference.constructor raw db).isRoot = false)
    (hh : (Reference.constructor raw db).path.head? ≠ some '/')
    (hl : (Reference.constructor raw db).path.getLast? ≠ some '/')
    (hne : s ≠ []) (hs : '/' ∉ s) :
    ∃ p, ((Reference.constructor raw db).child s).parent = .ok p ∧
      p.path = (Reference.constructor raw db).path ∧
      p.id = (Reference.constructor raw db).id ∧
      p.name = (Reference.constructor raw db).name ∧
      p.endpoint = (Reference.constructor raw db).endpoint ∧
      p = Reference.constructor raw db := by
  have hpne : (Reference.constructor raw db).path ≠ [] := by
    rw [constructor_isRoot] at hroot
    simpa using hroot
  have hpar := (parent_drops_last_segment (Reference.constructor raw db).path s db
    hpne hh hne hs).2
  rw [constructor_of_path raw db hh hl] at hpar
  refine ⟨Reference.constructor raw db, ?_, rfl, rfl, rfl, rfl, rfl⟩
  rw [child_of_segment raw db s hs]
  exact hpar

/-- Witness for C17: the parent of the child `sub` of `col/doc` is
`col/doc`. -/
theorem C17_child_then_parent_witness :
    ∃ p, ((Reference.constructor "col/doc".toList exampleDb).child "sub".toList).parent
        = .ok p ∧
      p.path = (Reference.constructor "col/doc".toList exampleDb).path ∧
      p.id = (Reference.constructor "col/doc".toList exampleDb).id ∧
      p.name = (Reference.constructor "col/doc".toList exampleDb).name ∧
      p.endpoint = (Reference.constructor "col/doc".toList exampleDb).endpoint ∧
      p = Reference.constructor "col/doc".toList exampleDb :=
  C17_child_then_parent "col/doc".toList exampleDb "sub".toList
    (by decide) (by decide) (by decide) (by decide) (by decide)

/-- C18: for a reference that is not the root and whose path neither begins
nor ends with a slash, and a non-empty segment without a slash,
`isCollection` of the child is the negation of `isCollection` of the
reference. -/
theorem C18_child_alternates (raw : Str) (db : Database) (s : Str)
    (hroot : (Reference.constructor raw db).isRoot = false)
    (hh : (Reference.constructor raw db).path.head? ≠ some '/')
    (_hl : (Reference.constructor raw db).path.getLast? ≠ some '/')
    (hne : s ≠ []) (hs : '/' ∉ s) :
    ((Reference.constructor raw db).child s).isCollection
      = !(Reference.constructor raw db).isCollection := by
  have hpne : (Reference.constructor raw db).path ≠ [] := by
    rw [constructor_isRoot] at hroot
    simpa using hroot
  have hpath := (parent_drops_last_segment (Reference.constructor raw db).path s db
    hpne hh hne hs).1
  rw [child_of_segment raw db s hs, Reference.isCollection, Reference.isCollection, hpath,
    split_append, split_noslash s hs, List.length_append]
  generalize (split '/' (Reference.constructor raw db).path).length = n
  have h2 : n % 2 = 0 ∨ n % 2 = 1 := by omega
  rcases h2 with h | h
  · have h' : (n + 1) % 2 = 1 := by omega
    simp [h, h']
  · have h' : (n + 1) % 2 = 0 := by omega
    simp [h, h']

/-- Witness for C18: `col/doc` is a document and its child `sub` is a
collection. -/
theorem C18_child_alternates_witness :
    ((Reference.constructor "col/doc".toList exampleDb).child "sub".toList).isCollection
      = !(Reference.constructor "col/doc".toList exampleDb).isCollection :=
  C18_child_alternates "col/doc".toList exampleDb "sub".toList
    (by decide) (by decide) (by decide) (by decide) (by decide)

end Firestore
